import Mathlib

/-!
# FloatInspector: bit-field extraction, classification and statistics

A shallow embedding of `FloatInspectorMetaInformationCreateGeneric` and of the
statistics functions of `FloatInspector.c`, and the properties of their
results.

Conventions of the embedding:

* a byte buffer is a `List Nat` whose entries are below 256 (`IsBytes`),
  index 0 being the least significant byte;
* `unsigned int` arithmetic is arithmetic on `Nat` reduced modulo `2 ^ 32`
  (`uadd`, `usub`, `umul`, `ushl`);
* every array access is checked: a read or write outside the array makes the
  whole computation `none`, which stands for undefined behaviour of the C
  program; a failed `assert` gives `none` as well, so `some r` means that the
  function returned `r`;
* in `FloatInspectorMetaInformationCreateGeneric` the two `malloc` calls are
  taken to succeed; `FloatInspectorMetaInformationCreateGenericMalloc` adds
  their outcome as a parameter;
* the statistics object is a value of `_FloatInspectorStatistics` and an update
  returns the new value; the blocks the creators obtain from `malloc` are not
  cleared by the code, so their contents are parameters of the creators.
-/

namespace FloatInspector

/-! ## Machine arithmetic -/

/-- The number of values of the C type `unsigned int`. -/
def UINT_MOD : Nat := 4294967296

/-- Addition on `unsigned int`. -/
def uadd (a b : Nat) : Nat := (a + b) % UINT_MOD

/-- Subtraction on `unsigned int`: wraps around below zero. -/
def usub (a b : Nat) : Nat := (a % UINT_MOD + UINT_MOD - b % UINT_MOD) % UINT_MOD

/-- Multiplication on `unsigned int`. -/
def umul (a b : Nat) : Nat := (a * b) % UINT_MOD

/-- Left shift on `unsigned int`. -/
def ushl (a k : Nat) : Nat := (a <<< k) % UINT_MOD

/-- A buffer of bytes: every entry is below 256. -/
def IsBytes (bytes : List Nat) : Prop := ∀ b ∈ bytes, b < 256

instance (bytes : List Nat) : Decidable (IsBytes bytes) := by
  unfold IsBytes; infer_instance

/-- The integer a buffer denotes, least significant byte first. -/
def leValue : List Nat → Nat
  | [] => 0
  | b :: rest => b + 256 * leValue rest

/-- Checked read `a[i]`. -/
def readByte (a : List Nat) (i : Nat) : Option Nat := a[i]?

/-- Checked write `a[i] = v`. -/
def writeByte (a : List Nat) (i v : Nat) : Option (List Nat) :=
  if i < a.length then some (a.set i v) else none

/-- Checked `memcpy(dst, src, n)`. -/
def memcpy (dst src : List Nat) (n : Nat) : Option (List Nat) :=
  if n ≤ src.length ∧ n ≤ dst.length then some (src.take n ++ dst.drop n) else none

/-- The statement `assert(c)`: a failed assertion ends the run without a result. -/
def cAssert (c : Bool) : Option Unit := if c then some () else none

/-! ## Data types (`FloatInspector.h`) -/

/-- The `sign` enumeration. -/
inductive Sign
  | Positive
  | Negative
  deriving DecidableEq, Repr

/-- The `type` enumeration. -/
inductive FloatType
  | Normalized
  | Denormalized
  | NaN
  | Infinity
  deriving DecidableEq, Repr

/-- The struct `FloatInspectorMetaInformation`. -/
structure FloatInspectorMetaInformation where
  exponent : List Nat
  nExponentBits : Nat
  nExponentBytes : Nat
  nNonZeroExponentBits : Nat
  mantissa : List Nat
  nMantissaBits : Nat
  nMantissaBytes : Nat
  nNonZeroMantissaBits : Nat
  sign : Sign
  type : FloatType
  deriving DecidableEq, Repr

/-! ## `FloatInspectorMetaInformationCreateGeneric` -/

/-- The loop of "Extract exponent": `for (i, j; i < hi; i++, j++)` writing
`exponent[j]`.  The first argument bounds the number of iterations; it is
started at `hi - i`, and a loop that would still run when it is used up has no
result. -/
def exponentLoop (bytes : List Nat) (offset hi : Nat) :
    Nat → Nat → Nat → List Nat → Option (List Nat)
  | 0, i, _, e => if i < hi then none else some e
  | fuel + 1, i, j, e =>
    if i < hi then
      (if offset ≠ 0 then
        (readByte bytes i).bind fun b0 =>
        (readByte bytes (uadd i 1)).bind fun b1 =>
          writeByte e j (((b0 >>> (8 - offset)) ||| (b1 <<< offset)) % 256)
      else
        (readByte bytes i).bind fun b0 => writeByte e j b0).bind fun e1 =>
      exponentLoop bytes offset hi fuel (uadd i 1) (uadd j 1) e1
    else some e

/-- The block "Extract exponent", from the zeroed array `e`. -/
def extractExponent (bytes : List Nat) (nExp overallBytes nExpBytes : Nat)
    (e : List Nat) : Option (List Nat) :=
  let offset := (uadd nExp 1) % 8
  let occupiedBytes :=
    if (uadd nExp 1) % 8 = 0 then (uadd nExp 1) >>> 3 else uadd ((uadd nExp 1) >>> 3) 1
  let start := usub overallBytes occupiedBytes
  let hi := usub overallBytes 1
  (exponentLoop bytes offset hi (hi - start) start 0 e).bind fun e1 =>
  (readByte bytes (usub overallBytes 1)).bind fun top =>
  (readByte e1 (usub nExpBytes 1)).bind fun old =>
    writeByte e1 (usub nExpBytes 1)
      (old ||| ((top &&& 0x7f) >>> (if offset = 0 then 0 else 8 - offset)))

/-- The loop building `mask`: `rest` rounds of `mask = (uint8_t)(mask << 1) | 1`. -/
def maskLoop : Nat → Nat → Nat
  | 0, mask => mask
  | rest + 1, mask => maskLoop rest ((((mask <<< 1) % 256) ||| 0x01) % 256)

/-- The block "Extract mantissa", from the zeroed array `m`. -/
def extractMantissa (bytes : List Nat) (nMant nMantBytes : Nat) (m : List Nat) :
    Option (List Nat) :=
  let rest := nMant % 8
  (memcpy m bytes (usub nMantBytes 1)).bind fun m1 =>
  let mask := maskLoop rest 0x00
  (readByte bytes (usub nMantBytes 1)).bind fun b =>
    writeByte m1 (usub nMantBytes 1) (b &&& mask)

/-- The loop `while (nZeroBytes < n && exponent[n - nZeroBytes - 1] == 0)
nZeroBytes++`.  The first argument bounds the iterations (started at `n`). -/
def exponentZeroBytes (exponent : List Nat) (n : Nat) : Nat → Nat → Option Nat
  | 0, z => if z < n then none else some z
  | fuel + 1, z =>
    if z < n then
      (readByte exponent (usub (usub n z) 1)).bind fun b =>
        if b = 0 then exponentZeroBytes exponent n fuel (uadd z 1) else some z
    else some z

/-- The loop `while (byte != 0) { nNonZeroBits++; byte >>= 1; }` on a
`uint8_t`; eight rounds empty a byte. -/
def countBitsShr : Nat → Nat → Nat → Nat
  | 0, _, n => n
  | fuel + 1, byte, n =>
    if byte ≠ 0 then countBitsShr fuel (byte >>> 1) (uadd n 1) else n

/-- The loop `while (byte != 0) { nNonZeroBits++; byte <<= 1; }` on a
`uint8_t`; eight rounds empty a byte. -/
def countBitsShl : Nat → Nat → Nat → Nat
  | 0, _, n => n
  | fuel + 1, byte, n =>
    if byte ≠ 0 then countBitsShl fuel ((byte <<< 1) % 256) (uadd n 1) else n

/-- The block "Count non-zero exponent bits". -/
def countExponentBits (exponent : List Nat) (nExp nExpBytes : Nat) : Option Nat :=
  (exponentZeroBytes exponent nExpBytes nExpBytes 0).bind fun nZeroBytes =>
  (if nZeroBytes < nExpBytes then
    (readByte exponent (usub (usub nExpBytes nZeroBytes) 1)).bind fun byte =>
      some (countBitsShr 8 byte 0)
  else some 0).bind fun nNonZeroBits =>
  if ushl nZeroBytes 3 < nExp then
    if nZeroBytes > 0 then
      some (uadd (uadd (nExp % 8) (ushl (usub nZeroBytes 1) 3)) nNonZeroBits)
    else
      some (uadd nNonZeroBits (ushl (usub nExpBytes 1) 3))
  else some 0

/-- The loop `while (nZeroBytes < n && mantissa[nZeroBytes] == 0) nZeroBytes++`.
The first argument bounds the iterations (started at `n`). -/
def mantissaZeroBytes (mantissa : List Nat) (n : Nat) : Nat → Nat → Option Nat
  | 0, z => if z < n then none else some z
  | fuel + 1, z =>
    if z < n then
      (readByte mantissa z).bind fun b =>
        if b = 0 then mantissaZeroBytes mantissa n fuel (uadd z 1) else some z
    else some z

/-- The block "Count non-zero mantissa bits". -/
def countMantissaBits (mantissa : List Nat) (nMant nMantBytes : Nat) : Option Nat :=
  (mantissaZeroBytes mantissa nMantBytes nMantBytes 0).bind fun nZeroBytes =>
  (if nZeroBytes < nMantBytes then
    (readByte mantissa nZeroBytes).bind fun byte =>
      some (countBitsShl 8 byte 0)
  else some 0).bind fun nNonZeroBits =>
  if ushl nZeroBytes 3 < nMant then
    some (usub (uadd nNonZeroBits (ushl (usub (usub nMantBytes nZeroBytes) 1) 3))
      (usub 8 (nMant % 8)))
  else some 0

/-- The first loop of "Determine type": looks for a byte other than `0xff`
among `exponent[0 .. hi-1]`; the result is `unsetBitsFound`. -/
def unsetInBytes (exponent : List Nat) (hi : Nat) : Nat → Nat → Option Nat
  | 0, i => if i < hi then none else some 0
  | fuel + 1, i =>
    if i < hi then
      (readByte exponent i).bind fun b =>
        if b ≠ 0xff then some 1 else unsetInBytes exponent hi fuel (uadd i 1)
    else some 0

/-- The second loop of "Determine type": looks for a cleared bit among the
low `nBitsLeft` bits of `exponent[idx]`; the result is `unsetBitsFound`. -/
def unsetInTopByte (exponent : List Nat) (idx nBitsLeft : Nat) : Nat → Nat → Option Nat
  | 0, i => if i < nBitsLeft then none else some 0
  | fuel + 1, i =>
    if i < nBitsLeft then
      (readByte exponent idx).bind fun byte =>
        if byte &&& (1 <<< i) = 0 then some 1
        else unsetInTopByte exponent idx nBitsLeft fuel (uadd i 1)
    else some 0

/-- The block "Determine type". -/
def determineType (exponent : List Nat)
    (nExponentBits nExponentBytes nNonZeroExponentBits nNonZeroMantissaBits : Nat) :
    Option FloatType :=
  if nNonZeroExponentBits = 0 then some FloatType.Denormalized
  else if nNonZeroExponentBits = nExponentBits then
    (unsetInBytes exponent (usub nExponentBytes 1) (usub nExponentBytes 1) 0).bind fun u1 =>
    (if u1 = 0 then
      let nBitsLeft := usub nExponentBits (umul (usub nExponentBytes 1) 8)
      unsetInTopByte exponent (usub nExponentBytes 1) nBitsLeft nBitsLeft 0
    else some u1).bind fun unsetBitsFound =>
    if unsetBitsFound = 0 then
      if nNonZeroMantissaBits = 0 then some FloatType.Infinity else some FloatType.NaN
    else some FloatType.Normalized
  else some FloatType.Normalized

/-- The function `FloatInspectorMetaInformationCreateGeneric(f, nExp, nMant)`,
`bytes` being the memory `f` points to. -/
def FloatInspectorMetaInformationCreateGeneric (bytes : List Nat) (nExp nMant : Nat) :
    Option FloatInspectorMetaInformation :=
  let overallBytes := (uadd (uadd 1 nExp) nMant) >>> 3
  let nExpBytes := if nExp % 8 = 0 then nExp >>> 3 else uadd (nExp >>> 3) 1
  let nMantBytes := if nMant % 8 = 0 then nMant >>> 3 else uadd (nMant >>> 3) 1
  (readByte bytes (usub overallBytes 1)).bind fun top =>
  let sign := if top &&& (1 <<< 7) ≠ 0 then Sign.Negative else Sign.Positive
  (extractExponent bytes nExp overallBytes nExpBytes (List.replicate nExpBytes 0)).bind
    fun exponent =>
  (extractMantissa bytes nMant nMantBytes (List.replicate nMantBytes 0)).bind fun mantissa =>
  (countExponentBits exponent nExp nExpBytes).bind fun nNonZeroExponentBits =>
  (cAssert (nNonZeroExponentBits ≤ nExp)).bind fun _ =>
  (countMantissaBits mantissa nMant nMantBytes).bind fun nNonZeroMantissaBits =>
  (cAssert (nNonZeroMantissaBits ≤ nMant)).bind fun _ =>
  (determineType exponent nExp nExpBytes nNonZeroExponentBits nNonZeroMantissaBits).bind
    fun type =>
  some {
    exponent := exponent
    nExponentBits := nExp
    nExponentBytes := nExpBytes
    nNonZeroExponentBits := nNonZeroExponentBits
    mantissa := mantissa
    nMantissaBits := nMant
    nMantissaBytes := nMantBytes
    nNonZeroMantissaBits := nNonZeroMantissaBits
    sign := sign
    type := type }

/-! ## Specification-side notions -/

/-- Byte `j` of the natural number `x`, counting from the least significant. -/
def byteOf (x j : Nat) : Nat := (x >>> (8 * j)) % 256

/-- The value one round of the exponent loop stores, in terms of the buffer's
integer value `V`. -/
def gexp (V o i : Nat) : Nat :=
  if o ≠ 0 then ((byteOf V i >>> (8 - o)) ||| (byteOf V (i + 1) <<< o)) % 256 else byteOf V i

/-- The `E`-bit exponent field of a buffer of value `V`: the bits `M .. M+E-1`. -/
def expField (V E M : Nat) : Nat := (V >>> M) % 2 ^ E

/-- The `M`-bit mantissa field of a buffer of value `V`: the bits `0 .. M-1`. -/
def mantField (V M : Nat) : Nat := V % 2 ^ M

/-- A byte array of `n` bytes holding the little-endian digits of `X`. -/
def IsLE (r : List Nat) (n X : Nat) : Prop :=
  r.length = n ∧ ∀ k, k < n → r[k]? = some (byteOf X k)

/-- The value the extracted mantissa bytes hold: the low `M` bits when `M` is
not a multiple of 8, the low `M - 8` bits when it is. -/
def mantStored (V M : Nat) : Nat := V % 2 ^ (8 * ((M + 7) / 8 - 1) + M % 8)

/-- The classification of "Determine type" as a function of the two counts and
the exponent field `X`. -/
def classify (ze E zm X : Nat) : FloatType :=
  if ze = 0 then FloatType.Denormalized
  else if ze = E then
    (if X = 2 ^ E - 1 then (if zm = 0 then FloatType.Infinity else FloatType.NaN)
     else FloatType.Normalized)
  else FloatType.Normalized

/-- The sign read off the top bit of byte `i` of `V`. -/
def signOf (V i : Nat) : Sign :=
  if byteOf V i &&& (1 <<< 7) ≠ 0 then Sign.Negative else Sign.Positive

/-- The `n` little-endian bytes of `x`. -/
def leBytes : Nat → Nat → List Nat
  | 0, _ => []
  | n + 1, x => x % 256 :: leBytes n (x / 256)

/-- The preconditions under which the extractor is called: widths at least 1,
a whole number of bytes in total, sizes that fit `unsigned int`, and a buffer
of exactly that many bytes. -/
def ValidCall (bytes : List Nat) (E M : Nat) : Prop :=
  IsBytes bytes ∧ 1 ≤ E ∧ 1 ≤ M ∧ (1 + E + M) % 8 = 0 ∧ 1 + E + M < 4294967296 ∧
    bytes.length = (1 + E + M) / 8

instance (bytes : List Nat) (E M : Nat) : Decidable (ValidCall bytes E M) := by
  unfold ValidCall; infer_instance

/-! ## The error constant and the allocation step -/

/-- The constant `kFloatInspectorMetaInformationError`; a `NULL` array is the
empty list. -/
def kFloatInspectorMetaInformationError : FloatInspectorMetaInformation :=
  { exponent := []
    nExponentBits := 0
    nExponentBytes := 0
    nNonZeroExponentBits := 0
    mantissa := []
    nMantissaBits := 0
    nMantissaBytes := 0
    nNonZeroMantissaBits := 0
    sign := Sign.Positive
    type := FloatType.NaN }

/-- The function `FloatInspectorMetaInformationCreateGeneric` with the outcome
of its two `malloc` calls made explicit: `expAllocated` and `mantAllocated`
tell whether `malloc(nExpBytes)` and `malloc(nMantBytes)` returned a non-null
pointer.  The two `bzero` calls come before the null check, so clearing one or
more bytes through a null pointer is undefined (`none`); when a pointer is
null and nothing was cleared through it, the error constant is returned; when
both allocations succeed the function goes on as
`FloatInspectorMetaInformationCreateGeneric` above. -/
def FloatInspectorMetaInformationCreateGenericMalloc (expAllocated mantAllocated : Bool)
    (bytes : List Nat) (nExp nMant : Nat) : Option FloatInspectorMetaInformation :=
  let nExpBytes := if nExp % 8 = 0 then nExp >>> 3 else uadd (nExp >>> 3) 1
  let nMantBytes := if nMant % 8 = 0 then nMant >>> 3 else uadd (nMant >>> 3) 1
  if (expAllocated = false ∧ nExpBytes ≠ 0) ∨ (mantAllocated = false ∧ nMantBytes ≠ 0) then none
  else if expAllocated = false ∨ mantAllocated = false then
    some kFloatInspectorMetaInformationError
  else FloatInspectorMetaInformationCreateGeneric bytes nExp nMant

/-! ## The statistics (`FloatInspector.h`, `FloatInspector.c`) -/

/-- The enumeration `PrecisionType`. -/
inductive PrecisionType
  | Float
  | Double
  | LongDouble
  deriving DecidableEq, Repr

/-- The struct `_FloatInspectorStatistics`; the four histograms are the arrays
the four pointers refer to, each cell an `unsigned int`. -/
structure _FloatInspectorStatistics where
  nEntries : Nat
  nDenormalized : Nat
  nNormalized : Nat
  nNegative : Nat
  nPositive : Nat
  nNaN : Nat
  nInf : Nat
  type : PrecisionType
  nBits : Nat
  nExponentBits : Nat
  nMantissaBits : Nat
  nNonZeroBitsNormalizedPositive : List Nat
  nNonZeroBitsDenormalizedPositive : List Nat
  nNonZeroBitsNormalizedNegative : List Nat
  nNonZeroBitsDenormalizedNegative : List Nat
  deriving DecidableEq, Repr

/-- The constants of the platform the creators use: `sizeof` of the three
floating types and the `<float.h>` mantissa digit counts. -/
structure Platform where
  sizeofFloat : Nat
  FLT_MANT_DIG : Nat
  sizeofDouble : Nat
  DBL_MANT_DIG : Nat
  sizeofLongDouble : Nat
  LDBL_MANT_DIG : Nat
  deriving DecidableEq, Repr

/-- The usual x86-64 values: IEEE single and double, x87 extended in 16 bytes. -/
def x86_64 : Platform :=
  { sizeofFloat := 4, FLT_MANT_DIG := 24, sizeofDouble := 8, DBL_MANT_DIG := 53,
    sizeofLongDouble := 16, LDBL_MANT_DIG := 64 }

/-- A block of `n` `unsigned int` cells as `malloc` returns it: the cells are
not initialised, cell `i` holds whatever value `contents i` the memory had. -/
def mallocCells (contents : Nat → Nat) (n : Nat) : List Nat :=
  (List.range n).map fun i => contents i % UINT_MOD

/-- The function `FloatInspectorStatisticsCreateFloat`; `m1 .. m4` are the
contents of the memory its four `malloc` calls return. -/
def FloatInspectorStatisticsCreateFloat (p : Platform) (m1 m2 m3 m4 : Nat → Nat) :
    _FloatInspectorStatistics :=
  let nExponentBits := usub (umul p.sizeofFloat 8) p.FLT_MANT_DIG
  let nMantissaBits := usub p.FLT_MANT_DIG 1
  { nEntries := 0
    nDenormalized := 0
    nNormalized := 0
    nNegative := 0
    nPositive := 1
    nNaN := 0
    nInf := 0
    type := PrecisionType.Float
    nBits := umul p.sizeofFloat 8
    nExponentBits := nExponentBits
    nMantissaBits := nMantissaBits
    nNonZeroBitsNormalizedPositive :=
      mallocCells m1 (uadd nExponentBits 1 * uadd nMantissaBits 1)
    nNonZeroBitsDenormalizedPositive := mallocCells m2 (uadd nMantissaBits 1)
    nNonZeroBitsNormalizedNegative :=
      mallocCells m3 (uadd nExponentBits 1 * uadd nMantissaBits 1)
    nNonZeroBitsDenormalizedNegative := mallocCells m4 (uadd nMantissaBits 1) }

/-- The function `FloatInspectorStatisticsCreateDouble`. -/
def FloatInspectorStatisticsCreateDouble (p : Platform) (m1 m2 m3 m4 : Nat → Nat) :
    _FloatInspectorStatistics :=
  let nExponentBits := usub (umul p.sizeofDouble 8) p.DBL_MANT_DIG
  let nMantissaBits := usub p.DBL_MANT_DIG 1
  { nEntries := 0
    nDenormalized := 0
    nNormalized := 0
    nNegative := 0
    nPositive := 1
    nNaN := 0
    nInf := 0
    type := PrecisionType.Double
    nBits := umul p.sizeofDouble 8
    nExponentBits := nExponentBits
    nMantissaBits := nMantissaBits
    nNonZeroBitsNormalizedPositive :=
      mallocCells m1 (uadd nExponentBits 1 * uadd nMantissaBits 1)
    nNonZeroBitsDenormalizedPositive := mallocCells m2 (uadd nMantissaBits 1)
    nNonZeroBitsNormalizedNegative :=
      mallocCells m3 (uadd nExponentBits 1 * uadd nMantissaBits 1)
    nNonZeroBitsDenormalizedNegative := mallocCells m4 (uadd nMantissaBits 1) }

/-- The function `FloatInspectorStatisticsCreateLongDouble`. -/
def FloatInspectorStatisticsCreateLongDouble (p : Platform) (m1 m2 m3 m4 : Nat → Nat) :
    _FloatInspectorStatistics :=
  let nExponentBits := usub (umul p.sizeofLongDouble 8) p.LDBL_MANT_DIG
  let nMantissaBits := usub p.LDBL_MANT_DIG 1
  { nEntries := 0
    nDenormalized := 0
    nNormalized := 0
    nNegative := 0
    nPositive := 0
    nNaN := 0
    nInf := 0
    type := PrecisionType.LongDouble
    nBits := umul p.sizeofLongDouble 8
    nExponentBits := nExponentBits
    nMantissaBits := nMantissaBits
    nNonZeroBitsNormalizedPositive :=
      mallocCells m1 (uadd nExponentBits 1 * uadd nMantissaBits 1)
    nNonZeroBitsDenormalizedPositive := mallocCells m2 (uadd nMantissaBits 1)
    nNonZeroBitsNormalizedNegative :=
      mallocCells m3 (uadd nExponentBits 1 * uadd nMantissaBits 1)
    nNonZeroBitsDenormalizedNegative := mallocCells m4 (uadd nMantissaBits 1) }

/-- The statement `a[i]++` on an array of `unsigned int`, checked. -/
def incrementCell (a : List Nat) (i : Nat) : Option (List Nat) :=
  (a[i]?).bind fun v => some (a.set i (uadd v 1))

/-- The function `FloatInspectorStatisticsUpdateWithMetaInformation`; the result
is the state `*stats` is left in. -/
def FloatInspectorStatisticsUpdateWithMetaInformation (stats : _FloatInspectorStatistics)
    (meta : FloatInspectorMetaInformation) : Option _FloatInspectorStatistics :=
  let width := uadd stats.nExponentBits 1
  let stats := { stats with nEntries := uadd stats.nEntries 1 }
  match meta.type with
  | FloatType.Normalized =>
    let stats := { stats with nNormalized := uadd stats.nNormalized 1 }
    if meta.sign = Sign.Positive then
      let stats := { stats with nPositive := uadd stats.nPositive 1 }
      (incrementCell stats.nNonZeroBitsNormalizedPositive
        (uadd (umul meta.nNonZeroMantissaBits width) meta.nNonZeroExponentBits)).bind fun h =>
      some { stats with nNonZeroBitsNormalizedPositive := h }
    else
      let stats := { stats with nNegative := uadd stats.nNegative 1 }
      (incrementCell stats.nNonZeroBitsNormalizedNegative
        (uadd (umul meta.nNonZeroMantissaBits width) meta.nNonZeroExponentBits)).bind fun h =>
      some { stats with nNonZeroBitsNormalizedNegative := h }
  | FloatType.Denormalized =>
    let stats := { stats with nDenormalized := uadd stats.nDenormalized 1 }
    if meta.sign = Sign.Positive then
      let stats := { stats with nPositive := uadd stats.nPositive 1 }
      (incrementCell stats.nNonZeroBitsDenormalizedPositive meta.nNonZeroMantissaBits).bind
        fun h => some { stats with nNonZeroBitsDenormalizedPositive := h }
    else
      let stats := { stats with nNegative := uadd stats.nNegative 1 }
      (incrementCell stats.nNonZeroBitsDenormalizedNegative meta.nNonZeroMantissaBits).bind
        fun h => some { stats with nNonZeroBitsDenormalizedNegative := h }
  | FloatType.NaN =>
    some { stats with nNaN := uadd stats.nNaN 1 }
  | FloatType.Infinity =>
    let stats := { stats with nInf := uadd stats.nInf 1 }
    if meta.sign = Sign.Positive then
      some { stats with nPositive := uadd stats.nPositive 1 }
    else
      some { stats with nNegative := uadd stats.nNegative 1 }

/-- A sequence of calls of `FloatInspectorStatisticsUpdateWithMetaInformation`
on the same profile, one per element of `metas`, in order. -/
def updateSequence (stats : _FloatInspectorStatistics) :
    List FloatInspectorMetaInformation → Option _FloatInspectorStatistics
  | [] => some stats
  | meta :: rest =>
    (FloatInspectorStatisticsUpdateWithMetaInformation stats meta).bind fun s =>
      updateSequence s rest

/-! ## Specification-side notions for the statistics -/

/-- The counter of a sign: `nPositive` or `nNegative`. -/
def signCounter (s : _FloatInspectorStatistics) : Sign → Nat
  | Sign.Positive => s.nPositive
  | Sign.Negative => s.nNegative

/-- The histogram of normalized numbers of a sign. -/
def normalizedHistogram (s : _FloatInspectorStatistics) : Sign → List Nat
  | Sign.Positive => s.nNonZeroBitsNormalizedPositive
  | Sign.Negative => s.nNonZeroBitsNormalizedNegative

/-- The histogram of denormalized numbers of a sign. -/
def denormalizedHistogram (s : _FloatInspectorStatistics) : Sign → List Nat
  | Sign.Positive => s.nNonZeroBitsDenormalizedPositive
  | Sign.Negative => s.nNonZeroBitsDenormalizedNegative

/-- The opposite sign. -/
def otherSign : Sign → Sign
  | Sign.Positive => Sign.Negative
  | Sign.Negative => Sign.Positive

/-- A profile with widths `(E, M)`: the two width fields hold `E` and `M`, the
normalized histograms have `(E + 1) * (M + 1)` cells and the denormalized ones
`M + 1`, as the creators allocate them, and the number of cells fits
`unsigned int`. -/
def IsProfile (s : _FloatInspectorStatistics) (E M : Nat) : Prop :=
  s.nExponentBits = E ∧ s.nMantissaBits = M ∧
  s.nNonZeroBitsNormalizedPositive.length = (E + 1) * (M + 1) ∧
  s.nNonZeroBitsDenormalizedPositive.length = M + 1 ∧
  s.nNonZeroBitsNormalizedNegative.length = (E + 1) * (M + 1) ∧
  s.nNonZeroBitsDenormalizedNegative.length = M + 1 ∧
  (E + 1) * (M + 1) < 4294967296

instance (s : _FloatInspectorStatistics) (E M : Nat) : Decidable (IsProfile s E M) := by
  unfold IsProfile; infer_instance

/-- The counts of a meta are within the widths `(E, M)`. -/
def WithinWidths (meta : FloatInspectorMetaInformation) (E M : Nat) : Prop :=
  meta.nNonZeroExponentBits ≤ E ∧ meta.nNonZeroMantissaBits ≤ M

/-- The bookkeeping the counters and histograms are meant to keep: the cells of
the normalized histograms sum to `nNormalized`, those of the denormalized ones
to `nDenormalized`, the four categories add up to `nEntries`, and the signed
counters plus `nNaN` are `nEntries + c`, `c` being the initial `nPositive`. -/
def Balanced (c : Nat) (s : _FloatInspectorStatistics) : Prop :=
  s.nNonZeroBitsNormalizedPositive.sum + s.nNonZeroBitsNormalizedNegative.sum = s.nNormalized ∧
  s.nNonZeroBitsDenormalizedPositive.sum + s.nNonZeroBitsDenormalizedNegative.sum
    = s.nDenormalized ∧
  s.nEntries = s.nNormalized + s.nDenormalized + s.nNaN + s.nInf ∧
  s.nPositive + s.nNegative + s.nNaN = s.nEntries + c

/-! ## The public extractors (`FloatInspector.c`) -/

/-- The function `FloatInspectorMetaInformationCreateWithFloat(f)`, `f` being
given by the bytes of its object representation. -/
def FloatInspectorMetaInformationCreateWithFloat (p : Platform) (f : List Nat) :
    Option FloatInspectorMetaInformation :=
  let nMant := usub p.FLT_MANT_DIG 1
  let nExp := usub (usub (ushl p.sizeofFloat 3) nMant) 1
  FloatInspectorMetaInformationCreateGeneric f nExp nMant

/-- The function `FloatInspectorMetaInformationCreateWithDouble(f)`. -/
def FloatInspectorMetaInformationCreateWithDouble (p : Platform) (f : List Nat) :
    Option FloatInspectorMetaInformation :=
  let nMant := usub p.DBL_MANT_DIG 1
  let nExp := usub (usub (ushl p.sizeofDouble 3) nMant) 1
  FloatInspectorMetaInformationCreateGeneric f nExp nMant

/-- The function `FloatInspectorMetaInformationCreateWithLongDouble(f)`.  Its
`nExp` is `(unsigned int) ceilf(log2f(LDBL_MAX_EXP - LDBL_MIN_EXP))`, a
floating-point computation of `<math.h>`; its value is the parameter
`ceilLog2ExpRange`.  For the x87 format the argument is
`16384 - (-16381) = 32765` and the value is 15. -/
def FloatInspectorMetaInformationCreateWithLongDouble (p : Platform) (ceilLog2ExpRange : Nat)
    (f : List Nat) : Option FloatInspectorMetaInformation :=
  let nMant := p.LDBL_MANT_DIG % UINT_MOD
  let nExp := ceilLog2ExpRange % UINT_MOD
  FloatInspectorMetaInformationCreateGeneric f nExp nMant

/-- The counter invariant: the four categories add up to `nEntries`. -/
def CounterInvariant (s : _FloatInspectorStatistics) : Prop :=
  s.nEntries = s.nNormalized + s.nDenormalized + s.nNaN + s.nInf

/-- Two buffers that differ only in bit 7 of their last byte: same length, the
same bytes before the last one, last bytes with the same low 7 bits and
different top bits. -/
def DifferOnlyInSignBit (b1 b2 : List Nat) : Prop :=
  b1.length = b2.length ∧
  (∀ i, i < b1.length - 1 → b1[i]? = b2[i]?) ∧
  b1.getD (b1.length - 1) 0 % 128 = b2.getD (b1.length - 1) 0 % 128 ∧
  (b1.getD (b1.length - 1) 0).testBit 7 ≠ (b2.getD (b1.length - 1) 0).testBit 7

instance (b1 b2 : List Nat) : Decidable (DifferOnlyInSignBit b1 b2) := by
  unfold DifferOnlyInSignBit; infer_instance

/-! ## Auxiliary facts -/

set_option linter.unusedVariables false


theorem leValue_lt (bytes : List Nat) (hb : IsBytes bytes) :
    leValue bytes < 2 ^ (8 * bytes.length) := by
  induction bytes with
  | nil => simp [leValue]
  | cons b rest ih =>
    have h1 : b < 256 := hb b (List.mem_cons_self _ _)
    have h2 := ih (fun x hx => hb x (List.mem_cons_of_mem _ hx))
    have h3 : 2 ^ (8 * (b :: rest).length) = 256 * 2 ^ (8 * rest.length) := by
      rw [List.length_cons, Nat.mul_succ, Nat.pow_add]; norm_num [Nat.mul_comm]
    rw [h3, leValue]; omega

theorem readByte_eq (bytes : List Nat) (hb : IsBytes bytes) (i : Nat) (hi : i < bytes.length) :
    readByte bytes i = some ((leValue bytes >>> (8 * i)) % 256) := by
  induction bytes generalizing i with
  | nil => simp at hi
  | cons b rest ih =>
    have h1 : b < 256 := hb b (List.mem_cons_self _ _)
    cases i with
    | zero =>
      simp [readByte, leValue]; omega
    | succ k =>
      have h2 := ih (fun x hx => hb x (List.mem_cons_of_mem _ hx)) k (by simpa using hi)
      simp only [readByte, List.getElem?_cons_succ] at h2 ⊢
      rw [h2, leValue]
      have h3 : 2 ^ (8 * (k + 1)) = 256 * 2 ^ (8 * k) := by
        rw [Nat.mul_succ, Nat.pow_add]; norm_num [Nat.mul_comm]
      have h4 : (b + 256 * leValue rest) / 256 = leValue rest := by omega
      rw [Nat.shiftRight_eq_div_pow, Nat.shiftRight_eq_div_pow, h3, ← Nat.div_div_eq_div_mul, h4]


theorem testBit_mod_256 (x k : Nat) :
    (x % 256).testBit k = (decide (k < 8) && x.testBit k) := by
  have h : (256 : Nat) = 2 ^ 8 := by norm_num
  rw [h, Nat.testBit_mod_two_pow]

theorem testBit_byteOf (x j k : Nat) :
    (byteOf x j).testBit k = (decide (k < 8) && x.testBit (8 * j + k)) := by
  simp [byteOf, testBit_mod_256]

theorem byteOf_lt (x j : Nat) : byteOf x j < 256 := Nat.mod_lt _ (by norm_num)

theorem expByte_mid (V M E o i j : Nat) (_ho : o ≠ 0) (ho8 : o < 8)
    (hpos : M + 8 * j = 8 * i + (8 - o)) (hj : 8 * j + 8 ≤ E) :
    ((byteOf V i >>> (8 - o)) ||| (byteOf V (i + 1) <<< o)) % 256
      = byteOf ((V >>> M) % 2 ^ E) j := by
  apply Nat.eq_of_testBit_eq
  intro k
  simp only [testBit_mod_256, testBit_byteOf, Nat.testBit_or, Nat.testBit_shiftRight,
    Nat.testBit_shiftLeft, Nat.testBit_mod_two_pow]
  by_cases hk : k < 8
  · by_cases hko : k < o
    · have e1 : 8 * i + (8 - o + k) = M + (8 * j + k) := by omega
      have e2 : ¬ (k ≥ o) := by omega
      have e3 : 8 - o + k < 8 := by omega
      have e4 : 8 * j + k < E := by omega
      simp [hk, e1, e2, e3, e4]
    · have e1 : 8 * (i + 1) + (k - o) = M + (8 * j + k) := by omega
      have e2 : k ≥ o := by omega
      have e3 : ¬ (8 - o + k < 8) := by omega
      have e4 : 8 * j + k < E := by omega
      have e5 : k - o < 8 := by omega
      simp [hk, e1, e2, e3, e4, e5]
  · simp [hk]

theorem expByte_mid0 (V M E i j : Nat)
    (hpos : M + 8 * j = 8 * i) (hj : 8 * j + 8 ≤ E) :
    byteOf V i = byteOf ((V >>> M) % 2 ^ E) j := by
  apply Nat.eq_of_testBit_eq
  intro k
  simp only [testBit_byteOf, Nat.testBit_shiftRight, Nat.testBit_mod_two_pow]
  by_cases hk : k < 8
  · have e1 : 8 * i + k = M + (8 * j + k) := by omega
    have e4 : 8 * j + k < E := by omega
    simp [hk, e1, e4]
  · simp [hk]

/-- last exponent byte: `s` is the shift applied to `top & 0x7f`. -/
theorem expByte_top (V M E i j s : Nat) (hs : s < 8)
    (hpos : M + 8 * j = 8 * i + s) (hj : 8 * j + (7 - s) = E) :
    ((byteOf V i &&& 0x7f) >>> s) = byteOf ((V >>> M) % 2 ^ E) j := by
  apply Nat.eq_of_testBit_eq
  intro k
  have h7 : (0x7f : Nat) = 2 ^ 7 - 1 := by norm_num
  simp only [testBit_byteOf, Nat.testBit_shiftRight, Nat.testBit_mod_two_pow, Nat.testBit_and,
    h7, Nat.testBit_two_pow_sub_one]
  by_cases hk : s + k < 7
  · have e1 : 8 * i + (s + k) = M + (8 * j + k) := by omega
    have e4 : 8 * j + k < E := by omega
    have e5 : s + k < 8 := by omega
    have e6 : k < 8 := by omega
    simp [hk, e1, e4, e5, e6]
  · have e4 : ¬ (8 * j + k < E) := by omega
    simp [hk, e4]


theorem uadd_eq (a b : Nat) (h : a + b < 4294967296) : uadd a b = a + b := by
  unfold uadd UINT_MOD; exact Nat.mod_eq_of_lt h

theorem usub_eq (a b : Nat) (hba : b ≤ a) (ha : a < 4294967296) : usub a b = a - b := by
  unfold usub UINT_MOD
  have hb : b < 4294967296 := by omega
  rw [Nat.mod_eq_of_lt ha, Nat.mod_eq_of_lt hb]
  omega

theorem ushl3_eq (a : Nat) (h : 8 * a < 4294967296) : ushl a 3 = 8 * a := by
  unfold ushl UINT_MOD
  rw [Nat.shiftLeft_eq]
  omega

theorem shr3_eq (a : Nat) : a >>> 3 = a / 8 := by
  rw [Nat.shiftRight_eq_div_pow]


theorem readByte_byteOf (bytes : List Nat) (hb : IsBytes bytes) (i : Nat)
    (hi : i < bytes.length) : readByte bytes i = some (byteOf (leValue bytes) i) :=
  readByte_eq bytes hb i hi

theorem exponentLoop_spec (bytes : List Nat) (hb : IsBytes bytes) (o hi : Nat)
    (hlen : hi < bytes.length) (h32 : hi < 4294967296) :
    ∀ (fuel i j : Nat) (e : List Nat), fuel = hi - i → i ≤ hi → j + (hi - i) ≤ e.length →
      e.length < 4294967296 →
      ∃ e1, exponentLoop bytes o hi fuel i j e = some e1 ∧ e1.length = e.length ∧
        ∀ k, e1[k]? = if j ≤ k ∧ k < j + (hi - i)
          then some (gexp (leValue bytes) o (i + (k - j))) else e[k]? := by
  intro fuel
  induction fuel with
  | zero =>
    intro i j e hf hi1 hj he
    refine ⟨e, ?_, rfl, ?_⟩
    · have : ¬ i < hi := by omega
      simp [exponentLoop, this]
    · intro k
      have : ¬ (j ≤ k ∧ k < j + (hi - i)) := by omega
      simp [this]
  | succ fuel ih =>
    intro i j e hf hi1 hj he
    have hlt : i < hi := by omega
    have r0 := readByte_byteOf bytes hb i (by omega)
    have r1 := readByte_byteOf bytes hb (i + 1) (by omega)
    have hu : uadd i 1 = i + 1 := uadd_eq _ _ (by omega)
    have hv : uadd j 1 = j + 1 := uadd_eq _ _ (by omega)
    have hjl : j < e.length := by omega
    have hstep : (if o ≠ 0 then
        (readByte bytes i).bind fun b0 =>
        (readByte bytes (uadd i 1)).bind fun b1 =>
          writeByte e j (((b0 >>> (8 - o)) ||| (b1 <<< o)) % 256)
      else
        (readByte bytes i).bind fun b0 => writeByte e j b0)
        = some (e.set j (gexp (leValue bytes) o i)) := by
      by_cases h0 : o ≠ 0
      · simp [h0, r0, hu, r1, writeByte, hjl, gexp]
      · simp [h0, r0, writeByte, hjl, gexp]
    obtain ⟨e1, h1, h2, h3⟩ := ih (i + 1) (j + 1) (e.set j (gexp (leValue bytes) o i))
      (by omega) (by omega) (by simp; omega) (by simpa using he)
    refine ⟨e1, ?_, ?_, ?_⟩
    · rw [exponentLoop, if_pos hlt, hstep, hu, hv]
      simpa using h1
    · simpa using h2
    · intro k
      rw [h3 k]
      by_cases hk : j + 1 ≤ k ∧ k < j + 1 + (hi - (i + 1))
      · have hk2 : j ≤ k ∧ k < j + (hi - i) := by omega
        have hk3 : i + 1 + (k - (j + 1)) = i + (k - j) := by omega
        rw [if_pos hk, if_pos hk2, hk3]
      · rw [if_neg hk]
        by_cases hkj : k = j
        · subst hkj
          have hk2 : k ≤ k ∧ k < k + (hi - i) := by omega
          rw [if_pos hk2]
          simp [hjl]
        · have hk2 : ¬ (j ≤ k ∧ k < j + (hi - i)) := by omega
          rw [if_neg hk2]
          simp [List.getElem?_set, Ne.symm hkj]



theorem and7f_shr7 (b : Nat) : (b &&& 0x7f) >>> 7 = 0 := by
  apply Nat.eq_of_testBit_eq
  intro k
  have h7 : (0x7f : Nat) = 2 ^ 7 - 1 := by norm_num
  rw [h7]
  simp only [Nat.testBit_shiftRight, Nat.testBit_and, Nat.testBit_two_pow_sub_one,
    Nat.zero_testBit]
  have : ¬ (7 + k < 7) := by omega
  simp [this]


theorem extractExponent_core (bytes : List Nat) (E M nb ob occ o t : Nat) (hb : IsBytes bytes)
    (hE : 1 ≤ E) (hob8 : 1 + E + M = 8 * ob) (h32 : ob < 536870912)
    (hlen : bytes.length = ob) (hnb1 : E ≤ 8 * nb) (hnb2 : 8 * nb ≤ E + 7)
    (ht : E + 1 = 8 * t + o) (ho : o < 8) (hocc0 : o = 0 → occ = t) (hocc1 : o ≠ 0 → occ = t + 1) :
    ∃ e, ((exponentLoop bytes o (ob - 1) (ob - 1 - (ob - occ)) (ob - occ) 0
        (List.replicate nb 0)).bind fun e1 =>
      (readByte bytes (ob - 1)).bind fun top =>
      (readByte e1 (nb - 1)).bind fun old =>
        writeByte e1 (nb - 1)
          (old ||| ((top &&& 0x7f) >>> (if o = 0 then 0 else 8 - o)))) = some e ∧
      e.length = nb ∧ ∀ k, k < nb → e[k]? = some (byteOf (expField (leValue bytes) E M) k) := by
  have hobp : 1 ≤ ob := by omega
  have hoccle : occ ≤ ob := by
    rcases Nat.eq_zero_or_pos o with h | h
    · have := hocc0 h; omega
    · have := hocc1 (by omega); omega
  have hnbocc : nb ≤ occ ∧ occ ≤ nb + 1 := by
    rcases Nat.eq_zero_or_pos o with h | h
    · have := hocc0 h; omega
    · have := hocc1 (by omega); omega
  have hcnt : ob - 1 - (ob - occ) = occ - 1 := by omega
  have hnbp : 1 ≤ nb := by omega
  obtain ⟨e1, hl1, hl2, hl3⟩ := exponentLoop_spec bytes hb o (ob - 1)
    (by omega) (by omega) (ob - 1 - (ob - occ)) (ob - occ) 0 (List.replicate nb 0) rfl (by omega)
    (by rw [List.length_replicate]; omega) (by rw [List.length_replicate]; omega)
  have hl2r : e1.length = nb := by rw [hl2, List.length_replicate]
  have hl3a : ∀ k, k < occ - 1 → e1[k]? = some (gexp (leValue bytes) o (ob - occ + k)) := by
    intro k hk
    rw [hl3 k, if_pos ⟨Nat.zero_le _, by omega⟩, Nat.sub_zero]
  have hl3b : ∀ k, occ - 1 ≤ k → k < nb → e1[k]? = some 0 := by
    intro k hk hk2
    rw [hl3 k, if_neg (by omega), List.getElem?_replicate, if_pos hk2]
  clear hl3 hl2
  have hmid : ∀ k, k < occ - 1 →
      gexp (leValue bytes) o (ob - occ + k) = byteOf (expField (leValue bytes) E M) k := by
    intro k hk
    unfold gexp
    by_cases h0 : o ≠ 0
    · rw [if_pos h0]
      have := hocc1 h0
      exact expByte_mid _ M E _ _ _ h0 ho (by omega) (by omega)
    · rw [if_neg h0]
      have := hocc0 (by omega)
      exact expByte_mid0 _ M E _ _ (by omega) (by omega)
  have htop := readByte_byteOf bytes hb (ob - 1) (by omega)
  have hold : ∃ old, readByte e1 (nb - 1) = some old ∧
      (old ||| ((byteOf (leValue bytes) (ob - 1) &&& 0x7f) >>> (if o = 0 then 0 else 8 - o)))
        = byteOf (expField (leValue bytes) E M) (nb - 1) := by
    by_cases hc : nb - 1 < occ - 1
    · refine ⟨_, hl3a _ hc, ?_⟩
      have ho1 : o = 1 := by
        rcases Nat.eq_zero_or_pos o with h | h
        · have := hocc0 h; omega
        · have := hocc1 (by omega); omega
      subst ho1
      rw [if_neg (by norm_num), and7f_shr7, Nat.or_zero]
      exact hmid _ hc
    · refine ⟨0, hl3b _ (by omega) (by omega), ?_⟩
      rw [Nat.zero_or]
      by_cases h0 : o = 0
      · have := hocc0 h0
        rw [if_pos h0]
        exact expByte_top _ M E _ _ 0 (by omega) (by omega) (by omega)
      · have := hocc1 h0
        rw [if_neg h0]
        exact expByte_top _ M E _ _ (8 - o) (by omega) (by omega) (by omega)
  obtain ⟨old, ho1, ho2⟩ := hold
  refine ⟨e1.set (nb - 1) (byteOf (expField (leValue bytes) E M) (nb - 1)), ?_, ?_, ?_⟩
  · rw [hl1]
    simp only [Option.some_bind, htop, ho1, writeByte]
    rw [if_pos (by omega), ho2]
  · rw [List.length_set]; exact hl2r
  · intro k hk
    by_cases hkn : k = nb - 1
    · subst hkn
      rw [List.getElem?_set_self (by omega)]
    · rw [List.getElem?_set_ne (Ne.symm hkn), hl3a k (by omega), hmid k (by omega)]

theorem extractExponent_spec (bytes : List Nat) (E M nb : Nat) (hb : IsBytes bytes)
    (hE : 1 ≤ E) (h8 : (1 + E + M) % 8 = 0) (h32 : 1 + E + M < 4294967296)
    (hlen : bytes.length = (1 + E + M) / 8) (hnb : nb = (E + 7) / 8) :
    ∃ e, extractExponent bytes E ((1 + E + M) / 8) nb (List.replicate nb 0) = some e ∧
      e.length = nb ∧ ∀ k, k < nb → e[k]? = some (byteOf (expField (leValue bytes) E M) k) := by
  have hob : 1 ≤ (1 + E + M) / 8 := by omega
  have hE1 : uadd E 1 = E + 1 := uadd_eq _ _ (by omega)
  have hocc : (if (E + 1) % 8 = 0 then (E + 1) >>> 3 else uadd ((E + 1) >>> 3) 1)
      = (E + 8) / 8 := by
    rw [shr3_eq, uadd_eq _ _ (by omega)]
    split <;> omega
  have hstart : usub ((1 + E + M) / 8) ((E + 8) / 8) = (1 + E + M) / 8 - (E + 8) / 8 :=
    usub_eq _ _ (by omega) (by omega)
  have hhi : usub ((1 + E + M) / 8) 1 = (1 + E + M) / 8 - 1 := usub_eq _ _ (by omega) (by omega)
  have hnb1 : usub nb 1 = nb - 1 := usub_eq _ _ (by omega) (by omega)
  unfold extractExponent
  simp only [hE1, hocc, hstart, hhi, hnb1]
  exact extractExponent_core bytes E M nb ((1 + E + M) / 8) ((E + 8) / 8) ((E + 1) % 8)
    ((E + 1) / 8) hb hE (by omega) (by omega) hlen (by omega) (by omega) (by omega) (by omega)
    (by omega) (by omega)

theorem maskLoop_eq : ∀ r, r < 8 → maskLoop r 0 = 2 ^ r - 1 := by decide

theorem byteOf_and_mask (V k r : Nat) (hr : r < 8) :
    byteOf V k &&& (2 ^ r - 1) = byteOf (V % 2 ^ (8 * k + r)) k := by
  apply Nat.eq_of_testBit_eq
  intro i
  simp only [testBit_byteOf, Nat.testBit_and, Nat.testBit_two_pow_sub_one,
    Nat.testBit_mod_two_pow]
  by_cases h1 : i < 8
  · by_cases h2 : i < r
    · have : 8 * k + i < 8 * k + r := by omega
      simp [h1, h2, this]
    · have : ¬ (8 * k + i < 8 * k + r) := by omega
      simp [h1, h2, this]
  · simp [h1]

theorem byteOf_mod_low (V j w : Nat) (h : 8 * j + 8 ≤ w) :
    byteOf (V % 2 ^ w) j = byteOf V j := by
  apply Nat.eq_of_testBit_eq
  intro i
  simp only [testBit_byteOf, Nat.testBit_mod_two_pow]
  by_cases h1 : i < 8
  · have : 8 * j + i < w := by omega
    simp [h1, this]
  · simp [h1]

theorem extractMantissa_core (bytes : List Nat) (M n ob : Nat) (hb : IsBytes bytes)
    (hn : 1 ≤ n) (hnob : n ≤ ob) (hlen : bytes.length = ob) :
    ∃ m, ((memcpy (List.replicate n 0) bytes (n - 1)).bind fun m1 =>
        (readByte bytes (n - 1)).bind fun b =>
          writeByte m1 (n - 1) (b &&& maskLoop (M % 8) 0x00)) = some m ∧
      IsLE m n (leValue bytes % 2 ^ (8 * (n - 1) + M % 8)) := by
  have hr : M % 8 < 8 := Nat.mod_lt _ (by norm_num)
  have htop := readByte_byteOf bytes hb (n - 1) (by omega)
  refine ⟨((bytes.take (n - 1)) ++ (List.replicate n 0).drop (n - 1)).set (n - 1)
    (byteOf (leValue bytes % 2 ^ (8 * (n - 1) + M % 8)) (n - 1)), ?_, ?_, ?_⟩
  · have hm : memcpy (List.replicate n 0) bytes (n - 1)
        = some ((bytes.take (n - 1)) ++ (List.replicate n 0).drop (n - 1)) := by
      unfold memcpy
      rw [if_pos]
      rw [List.length_replicate]
      omega
    rw [hm, Option.some_bind, htop, Option.some_bind, maskLoop_eq _ hr, byteOf_and_mask _ _ _ hr]
    unfold writeByte
    rw [if_pos]
    simp only [List.length_append, List.length_take, List.length_drop, List.length_replicate]
    omega
  · simp only [List.length_set, List.length_append, List.length_take, List.length_drop,
      List.length_replicate]
    omega
  · intro k hk
    have hl : (List.take (n - 1) bytes).length = n - 1 := by
      rw [List.length_take]; omega
    by_cases hkn : k = n - 1
    · subst hkn
      rw [List.getElem?_set_self]
      simp only [List.length_append, List.length_take, List.length_drop, List.length_replicate]
      omega
    · rw [List.getElem?_set_ne (Ne.symm hkn), List.getElem?_append_left (by omega),
        List.getElem?_take_of_lt (by omega)]
      have := readByte_byteOf bytes hb k (by omega)
      unfold readByte at this
      rw [this, byteOf_mod_low _ _ _ (by omega)]

theorem extractMantissa_spec (bytes : List Nat) (M n ob : Nat) (hb : IsBytes bytes)
    (hn : 1 ≤ n) (hnob : n ≤ ob) (hlen : bytes.length = ob) (h32 : n < 4294967296) :
    ∃ m, extractMantissa bytes M n (List.replicate n 0) = some m ∧
      IsLE m n (leValue bytes % 2 ^ (8 * (n - 1) + M % 8)) := by
  unfold extractMantissa
  simp only [usub_eq n 1 hn h32]
  exact extractMantissa_core bytes M n ob hb hn hnob hlen

theorem exponentZeroBytes_spec (e : List Nat) (n : Nat) (he : e.length = n)
    (h32 : n < 4294967296) :
    ∀ (fuel z : Nat), fuel + z = n → (∀ k, n - z ≤ k → k < n → e[k]? = some 0) →
      ∃ z1, exponentZeroBytes e n fuel z = some z1 ∧ z1 ≤ n ∧
        (∀ k, n - z1 ≤ k → k < n → e[k]? = some 0) ∧
        (z1 < n → ∃ b, e[n - z1 - 1]? = some b ∧ b ≠ 0) := by
  intro fuel
  induction fuel with
  | zero =>
    intro z hz hinv
    refine ⟨z, ?_, by omega, hinv, fun h => by omega⟩
    unfold exponentZeroBytes
    rw [if_neg (by omega)]
  | succ fuel ih =>
    intro z hz hinv
    have hlt : z < n := by omega
    have hidx : usub (usub n z) 1 = n - z - 1 := by
      rw [usub_eq n z (by omega) h32, usub_eq _ 1 (by omega) (by omega)]
    have hin : n - z - 1 < e.length := by omega
    obtain ⟨b, hbv⟩ : ∃ b, e[n - z - 1]? = some b := ⟨_, List.getElem?_eq_getElem hin⟩
    unfold exponentZeroBytes
    rw [if_pos hlt, hidx]
    unfold readByte
    rw [hbv, Option.some_bind]
    by_cases hb0 : b = 0
    · rw [if_pos hb0, uadd_eq z 1 (by omega)]
      apply ih (z + 1) (by omega)
      intro k hk1 hk2
      by_cases hk : k = n - z - 1
      · rw [hk, hbv, hb0]
      · exact hinv k (by omega) hk2
    · rw [if_neg hb0]
      exact ⟨z, rfl, by omega, hinv, fun _ => ⟨b, hbv, hb0⟩⟩

theorem mantissaZeroBytes_spec (m : List Nat) (n : Nat) (hm : m.length = n)
    (h32 : n < 4294967296) :
    ∀ (fuel z : Nat), fuel + z = n → (∀ k, k < z → m[k]? = some 0) →
      ∃ z1, mantissaZeroBytes m n fuel z = some z1 ∧ z1 ≤ n ∧
        (∀ k, k < z1 → m[k]? = some 0) ∧
        (z1 < n → ∃ b, m[z1]? = some b ∧ b ≠ 0) := by
  intro fuel
  induction fuel with
  | zero =>
    intro z hz hinv
    refine ⟨z, ?_, by omega, hinv, fun h => by omega⟩
    unfold mantissaZeroBytes
    rw [if_neg (by omega)]
  | succ fuel ih =>
    intro z hz hinv
    have hlt : z < n := by omega
    have hin : z < m.length := by omega
    obtain ⟨b, hbv⟩ : ∃ b, m[z]? = some b := ⟨_, List.getElem?_eq_getElem hin⟩
    unfold mantissaZeroBytes
    rw [if_pos hlt]
    unfold readByte
    rw [hbv, Option.some_bind]
    by_cases hb0 : b = 0
    · rw [if_pos hb0, uadd_eq z 1 (by omega)]
      apply ih (z + 1) (by omega)
      intro k hk1
      by_cases hk : k = z
      · rw [hk, hbv, hb0]
      · exact hinv k (by omega)
    · rw [if_neg hb0]
      exact ⟨z, rfl, by omega, hinv, fun _ => ⟨b, hbv, hb0⟩⟩

set_option maxRecDepth 100000 in
/-- Bit length of a byte, as counted by the right-shifting loop. -/
theorem countBitsShr_spec : ∀ b, b < 256 → b ≠ 0 →
    1 ≤ countBitsShr 8 b 0 ∧ countBitsShr 8 b 0 ≤ 8 ∧
      2 ^ (countBitsShr 8 b 0 - 1) ≤ b ∧ b < 2 ^ countBitsShr 8 b 0 := by
  decide

set_option maxRecDepth 100000 in
/-- Eight minus the number of trailing zero bits, as counted by the left-shifting loop. -/
theorem countBitsShl_spec : ∀ b, b < 256 → b ≠ 0 →
    1 ≤ countBitsShl 8 b 0 ∧ countBitsShl 8 b 0 ≤ 8 ∧
      b % 2 ^ (8 - countBitsShl 8 b 0) = 0 ∧ b % 2 ^ (8 - countBitsShl 8 b 0 + 1) ≠ 0 := by
  decide

theorem countExponentBits_spec (e : List Nat) (E n X : Nat) (hle : IsLE e n X)
    (hn1 : E ≤ 8 * n) (hn2 : 8 * n ≤ E + 7) (hE : 1 ≤ E) (h32 : 8 * n < 4294967296) :
    ∃ z c, countExponentBits e E n = some c ∧ z ≤ n ∧
      (∀ k, n - z ≤ k → k < n → byteOf X k = 0) ∧
      (z = n → c = 0) ∧
      (z < n → byteOf X (n - z - 1) ≠ 0 ∧
        c = if z > 0 then E % 8 + 8 * (z - 1) + countBitsShr 8 (byteOf X (n - z - 1)) 0
            else countBitsShr 8 (byteOf X (n - z - 1)) 0 + 8 * (n - 1)) := by
  obtain ⟨hlen, hpt⟩ := hle
  obtain ⟨z, hz1, hz2, hz3, hz4⟩ := exponentZeroBytes_spec e n hlen (by omega) n 0 (by omega)
    (fun k h1 h2 => by omega)
  have hzero : ∀ k, n - z ≤ k → k < n → byteOf X k = 0 := by
    intro k h1 h2
    have := hz3 k h1 h2
    rw [hpt k h2] at this
    exact Option.some.inj this
  have hshl : ushl z 3 = 8 * z := ushl3_eq z (by omega)
  by_cases hzn : z < n
  · obtain ⟨b, hb1, hb2⟩ := hz4 hzn
    rw [hpt _ (by omega)] at hb1
    have hbe : byteOf X (n - z - 1) = b := Option.some.inj hb1
    subst hbe
    obtain ⟨c1, c2, c3, c4⟩ := countBitsShr_spec _ (byteOf_lt X (n - z - 1)) hb2
    have hidx : usub (usub n z) 1 = n - z - 1 := by
      rw [usub_eq n z (by omega) (by omega), usub_eq _ 1 (by omega) (by omega)]
    have hrd : readByte e (usub (usub n z) 1) = some (byteOf X (n - z - 1)) := by
      rw [hidx]; exact hpt _ (by omega)
    refine ⟨z, _, ?_, hz2, hzero, fun h => by omega, fun _ => ⟨hb2, rfl⟩⟩
    unfold countExponentBits
    rw [hz1, Option.some_bind, if_pos hzn, hrd, Option.some_bind, Option.some_bind, hshl,
      if_pos (by omega)]
    by_cases hz0 : z > 0
    · rw [if_pos hz0, if_pos hz0, usub_eq z 1 (by omega) (by omega), ushl3_eq _ (by omega),
        uadd_eq (E % 8) _ (by omega), uadd_eq _ _ (by omega)]
    · rw [if_neg hz0, if_neg hz0, usub_eq n 1 (by omega) (by omega), ushl3_eq _ (by omega),
        uadd_eq _ _ (by omega)]
  · have hzeq : z = n := by omega
    refine ⟨z, 0, ?_, hz2, hzero, fun _ => rfl, fun h => by omega⟩
    unfold countExponentBits
    rw [hz1, Option.some_bind, if_neg hzn, Option.some_bind, hshl, if_neg (by omega)]

theorem countMantissaBits_spec (m : List Nat) (M n Y : Nat) (hle : IsLE m n Y)
    (hn1 : M ≤ 8 * n) (hn2 : 8 * n ≤ M + 7) (hM : 1 ≤ M) (h32 : 8 * n < 4294967296) :
    ∃ z c, countMantissaBits m M n = some c ∧ z ≤ n ∧
      (∀ k, k < z → byteOf Y k = 0) ∧
      (z = n → c = 0) ∧
      (z < n → byteOf Y z ≠ 0 ∧
        c = usub (countBitsShl 8 (byteOf Y z) 0 + 8 * (n - z - 1)) (8 - M % 8)) := by
  obtain ⟨hlen, hpt⟩ := hle
  obtain ⟨z, hz1, hz2, hz3, hz4⟩ := mantissaZeroBytes_spec m n hlen (by omega) n 0 (by omega)
    (fun k h1 => by omega)
  have hzero : ∀ k, k < z → byteOf Y k = 0 := by
    intro k h1
    have := hz3 k h1
    rw [hpt k (by omega)] at this
    exact Option.some.inj this
  have hshl : ushl z 3 = 8 * z := ushl3_eq z (by omega)
  by_cases hzn : z < n
  · obtain ⟨b, hb1, hb2⟩ := hz4 hzn
    rw [hpt _ (by omega)] at hb1
    have hbe : byteOf Y z = b := Option.some.inj hb1
    subst hbe
    obtain ⟨c1, c2, c3, c4⟩ := countBitsShl_spec _ (byteOf_lt Y z) hb2
    have hrd : readByte m z = some (byteOf Y z) := hpt _ hzn
    have hidx : usub (usub n z) 1 = n - z - 1 := by
      rw [usub_eq n z (by omega) (by omega), usub_eq _ 1 (by omega) (by omega)]
    refine ⟨z, _, ?_, hz2, hzero, fun h => by omega, fun _ => ⟨hb2, rfl⟩⟩
    unfold countMantissaBits
    rw [hz1, Option.some_bind, if_pos hzn, hrd, Option.some_bind, Option.some_bind, hshl,
      if_pos (by omega), hidx, ushl3_eq _ (by omega), uadd_eq _ _ (by omega),
      usub_eq 8 (M % 8) (by omega) (by norm_num)]
  · have hzeq : z = n := by omega
    refine ⟨z, 0, ?_, hz2, hzero, fun _ => rfl, fun h => by omega⟩
    unfold countMantissaBits
    rw [hz1, Option.some_bind, if_neg hzn, Option.some_bind, hshl, if_neg (by omega)]

theorem umul_eq (a b : Nat) (h : a * b < 4294967296) : umul a b = a * b := by
  unfold umul UINT_MOD; exact Nat.mod_eq_of_lt h

theorem unsetInBytes_spec (e : List Nat) (n X hi : Nat) (hle : IsLE e n X) (hhi : hi ≤ n)
    (h32 : n < 4294967296) :
    ∀ (fuel i : Nat), fuel + i = hi →
      ∃ u, unsetInBytes e hi fuel i = some u ∧
        (u = 0 ↔ ∀ k, i ≤ k → k < hi → byteOf X k = 255) := by
  obtain ⟨hlen, hpt⟩ := hle
  intro fuel
  induction fuel with
  | zero =>
    intro i hi1
    refine ⟨0, ?_, ?_⟩
    · unfold unsetInBytes
      rw [if_neg (by omega)]
    · exact ⟨fun _ k h1 h2 => by omega, fun _ => rfl⟩
  | succ fuel ih =>
    intro i hi1
    have hlt : i < hi := by omega
    have hrd : readByte e i = some (byteOf X i) := hpt i (by omega)
    unfold unsetInBytes
    rw [if_pos hlt, hrd, Option.some_bind]
    by_cases hb : byteOf X i ≠ 0xff
    · rw [if_pos hb]
      refine ⟨1, rfl, ?_⟩
      constructor
      · intro h; omega
      · intro h; exact absurd (h i (Nat.le_refl _) hlt) hb
    · rw [if_neg hb, uadd_eq i 1 (by omega)]
      obtain ⟨u, hu1, hu2⟩ := ih (i + 1) (by omega)
      refine ⟨u, hu1, ?_⟩
      rw [hu2]
      constructor
      · intro h k h1 h2
        by_cases hk : k = i
        · subst hk; exact not_not.mp hb
        · exact h k (by omega) h2
      · intro h k h1 h2
        exact h k (by omega) h2

theorem and_one_shiftLeft_eq_zero (b i : Nat) : b &&& (1 <<< i) = 0 ↔ b.testBit i = false := by
  rw [Nat.one_shiftLeft, Nat.and_two_pow]
  have hp : 0 < 2 ^ i := Nat.pow_pos (by norm_num)
  cases h : b.testBit i
  · simp
  · simp

theorem unsetInTopByte_spec (e : List Nat) (idx b w : Nat) (hrd : readByte e idx = some b)
    (h32 : w < 4294967296) :
    ∀ (fuel i : Nat), fuel + i = w →
      ∃ u, unsetInTopByte e idx w fuel i = some u ∧
        (u = 0 ↔ ∀ k, i ≤ k → k < w → b.testBit k = true) := by
  intro fuel
  induction fuel with
  | zero =>
    intro i hi
    refine ⟨0, ?_, ⟨fun _ k h1 h2 => by omega, fun _ => rfl⟩⟩
    unfold unsetInTopByte
    rw [if_neg (by omega)]
  | succ fuel ih =>
    intro i hi
    have hlt : i < w := by omega
    unfold unsetInTopByte
    rw [if_pos hlt, hrd, Option.some_bind]
    by_cases hb : b &&& (1 <<< i) = 0
    · rw [if_pos hb]
      have hf := (and_one_shiftLeft_eq_zero b i).mp hb
      refine ⟨1, rfl, ?_⟩
      constructor
      · intro h; omega
      · intro h
        have := h i (Nat.le_refl _) hlt
        rw [hf] at this
        exact absurd this (by simp)
    · rw [if_neg hb, uadd_eq i 1 (by omega)]
      obtain ⟨u, hu1, hu2⟩ := ih (i + 1) (by omega)
      refine ⟨u, hu1, ?_⟩
      rw [hu2]
      have ht : b.testBit i = true := by
        cases h : b.testBit i
        · exact absurd ((and_one_shiftLeft_eq_zero b i).mpr h) hb
        · rfl
      constructor
      · intro h k h1 h2
        by_cases hk : k = i
        · subst hk; exact ht
        · exact h k (by omega) h2
      · intro h k h1 h2
        exact h k (by omega) h2

/-- All `E` bits of the field are set exactly when the two loops of "Determine type"
find no cleared bit. -/
theorem allOnes_iff (X E n : Nat) (hX : X < 2 ^ E) (hn1 : E ≤ 8 * n) (hn2 : 8 * n ≤ E + 7)
    (hE : 1 ≤ E) :
    ((∀ k, 0 ≤ k → k < n - 1 → byteOf X k = 255) ∧
      (∀ k, 0 ≤ k → k < E - 8 * (n - 1) → (byteOf X (n - 1)).testBit k = true))
      ↔ X = 2 ^ E - 1 := by
  constructor
  · rintro ⟨h1, h2⟩
    apply Nat.eq_of_testBit_eq
    intro i
    rw [Nat.testBit_two_pow_sub_one]
    by_cases hi : i < E
    · rw [decide_eq_true hi]
      by_cases hq : i / 8 < n - 1
      · have := h1 (i / 8) (Nat.zero_le _) hq
        have h3 : (byteOf X (i / 8)).testBit (i % 8) = true := by
          rw [this]
          have h255 : (255 : Nat) = 2 ^ 8 - 1 := by norm_num
          rw [h255, Nat.testBit_two_pow_sub_one]
          exact decide_eq_true (Nat.mod_lt _ (by norm_num))
        rw [testBit_byteOf, Nat.div_add_mod] at h3
        simp at h3
        exact h3.2
      · have h3 := h2 (i % 8) (Nat.zero_le _) (by omega)
        have h4 : 8 * (n - 1) + i % 8 = i := by omega
        rw [testBit_byteOf, h4] at h3
        simp at h3
        exact h3.2
    · rw [decide_eq_false hi]
      apply Nat.testBit_lt_two_pow
      exact Nat.lt_of_lt_of_le hX (Nat.pow_le_pow_right (by norm_num) (by omega))
  · intro h
    subst h
    constructor
    · intro k _ hk
      apply Nat.eq_of_testBit_eq
      intro i
      have h255 : (255 : Nat) = 2 ^ 8 - 1 := by norm_num
      rw [h255, testBit_byteOf, Nat.testBit_two_pow_sub_one, Nat.testBit_two_pow_sub_one]
      by_cases hi : i < 8
      · have : 8 * k + i < E := by omega
        simp [hi, this]
      · simp [hi]
    · intro k _ hk
      rw [testBit_byteOf, Nat.testBit_two_pow_sub_one]
      have h1 : k < 8 := by omega
      have h2 : 8 * (n - 1) + k < E := by omega
      simp [h1, h2]

theorem determineType_spec (e : List Nat) (E n X ze zm : Nat) (hle : IsLE e n X)
    (hX : X < 2 ^ E) (hn1 : E ≤ 8 * n) (hn2 : 8 * n ≤ E + 7) (hE : 1 ≤ E)
    (h32 : 8 * n < 4294967296) (hE32 : E < 4294967296) :
    determineType e E n ze zm = some
      (if ze = 0 then FloatType.Denormalized
       else if ze = E then
         (if X = 2 ^ E - 1 then (if zm = 0 then FloatType.Infinity else FloatType.NaN)
          else FloatType.Normalized)
       else FloatType.Normalized) := by
  unfold determineType
  by_cases h0 : ze = 0
  · rw [if_pos h0, if_pos h0]
  rw [if_neg h0, if_neg h0]
  by_cases hE1 : ze = E
  swap
  · rw [if_neg hE1, if_neg hE1]
  rw [if_pos hE1, if_pos hE1]
  have hn : 1 ≤ n := by omega
  have hs1 : usub n 1 = n - 1 := usub_eq _ _ hn (by omega)
  have hmul : umul (n - 1) 8 = 8 * (n - 1) := by
    rw [umul_eq _ _ (by omega)]; omega
  have hw : usub E (8 * (n - 1)) = E - 8 * (n - 1) := usub_eq _ _ (by omega) hE32
  obtain ⟨u, hu1, hu2⟩ := unsetInBytes_spec e n X (n - 1) hle (by omega) (by omega) (n - 1) 0
    (by omega)
  have htop : readByte e (n - 1) = some (byteOf X (n - 1)) := hle.2 _ (by omega)
  obtain ⟨u2, ht1, ht2⟩ := unsetInTopByte_spec e (n - 1) (byteOf X (n - 1))
    (E - 8 * (n - 1)) htop (by omega) (E - 8 * (n - 1)) 0 (by omega)
  have hall := allOnes_iff X E n hX hn1 hn2 hE
  simp only [hs1, hmul, hw, hu1, Option.some_bind]
  by_cases hu0 : u = 0
  · rw [if_pos hu0, ht1, Option.some_bind]
    by_cases ht : u2 = 0
    · have : X = 2 ^ E - 1 := hall.mp ⟨hu2.mp hu0, ht2.mp ht⟩
      rw [if_pos ht, if_pos this]
      split <;> rfl
    · have : ¬ X = 2 ^ E - 1 := fun hx => ht (ht2.mpr (hall.mpr hx).2)
      rw [if_neg ht, if_neg this]
  · have : ¬ X = 2 ^ E - 1 := fun hx => hu0 (hu2.mpr (hall.mpr hx).1)
    rw [if_neg hu0, Option.some_bind, if_neg hu0, if_neg this]

theorem byteOf_zero (k : Nat) : byteOf 0 k = 0 := by
  unfold byteOf; simp

theorem eq_zero_of_bytes_zero (X n : Nat) (hX : X < 2 ^ (8 * n))
    (h : ∀ k, k < n → byteOf X k = 0) : X = 0 := by
  apply Nat.eq_of_testBit_eq
  intro i
  rw [Nat.zero_testBit]
  by_cases hi : i < 8 * n
  · have h1 := h (i / 8) (by omega)
    have h2 : (byteOf X (i / 8)).testBit (i % 8) = false := by rw [h1, Nat.zero_testBit]
    rw [testBit_byteOf, Nat.div_add_mod] at h2
    have h3 : i % 8 < 8 := Nat.mod_lt _ (by norm_num)
    simpa [h3] using h2
  · apply Nat.testBit_lt_two_pow
    exact Nat.lt_of_lt_of_le hX (Nat.pow_le_pow_right (by norm_num) (by omega))

theorem byteOf_top_lt (X E j : Nat) (hX : X < 2 ^ E) (hj : 8 * j ≤ E) :
    byteOf X j < 2 ^ (E - 8 * j) := by
  unfold byteOf
  apply Nat.lt_of_le_of_lt (Nat.mod_le _ _)
  rw [Nat.shiftRight_eq_div_pow]
  apply Nat.div_lt_of_lt_mul
  rw [← Nat.pow_add]
  have : 8 * j + (E - 8 * j) = E := by omega
  rw [this]
  exact hX

theorem byteOf_allOnes_top (E j : Nat) (hj : 8 * j ≤ E) (hj2 : E ≤ 8 * j + 8) :
    byteOf (2 ^ E - 1) j = 2 ^ (E - 8 * j) - 1 := by
  apply Nat.eq_of_testBit_eq
  intro i
  rw [testBit_byteOf, Nat.testBit_two_pow_sub_one, Nat.testBit_two_pow_sub_one]
  by_cases h1 : i < E - 8 * j
  · have h2 : i < 8 := by omega
    have h3 : 8 * j + i < E := by omega
    simp [h1, h2, h3]
  · have h3 : ¬ (8 * j + i < E) := by omega
    simp [h1, h3]

theorem pow_lt_pow_two (a b : Nat) (h : 2 ^ a < 2 ^ b) : a < b :=
  (Nat.pow_lt_pow_iff_right (by norm_num : 1 < 2)).mp h

theorem exp_count_facts (e : List Nat) (E n X c : Nat) (hle : IsLE e n X) (hX : X < 2 ^ E)
    (hn1 : E ≤ 8 * n) (hn2 : 8 * n ≤ E + 7) (hE : 1 ≤ E) (h32 : 8 * n < 4294967296)
    (hc : countExponentBits e E n = some c) :
    (X = 0 → c = 0) ∧ (X ≠ 0 → 1 ≤ c ∧ c ≤ E) ∧ (X = 2 ^ E - 1 → c = E) := by
  obtain ⟨z, c1, h1, h2, h3, h4, h5⟩ := countExponentBits_spec e E n X hle hn1 hn2 hE h32
  rw [hc] at h1
  have hcc : c = c1 := Option.some.inj h1
  subst hcc
  have hn : 1 ≤ n := by omega
  refine ⟨?_, ?_, ?_⟩
  · intro hX0
    subst hX0
    by_cases hz : z < n
    · exact absurd (byteOf_zero _) (h5 hz).1
    · exact h4 (by omega)
  · intro hXne
    have hz : z < n := by
      by_contra hz
      apply hXne
      apply eq_zero_of_bytes_zero X n
      · exact Nat.lt_of_lt_of_le hX (Nat.pow_le_pow_right (by norm_num) hn1)
      · intro k hk
        exact h3 k (by omega) hk
    obtain ⟨hb, hcv⟩ := h5 hz
    obtain ⟨s1, s2, s3, s4⟩ := countBitsShr_spec _ (byteOf_lt X (n - z - 1)) hb
    by_cases hz0 : z > 0
    · rw [if_pos hz0] at hcv
      omega
    · rw [if_neg hz0] at hcv
      have hz00 : z = 0 := by omega
      subst hz00
      have ht := byteOf_top_lt X E (n - 0 - 1) hX (by omega)
      have := pow_lt_pow_two _ _ (Nat.lt_of_le_of_lt s3 ht)
      omega
  · intro hXa
    subst hXa
    have htop := byteOf_allOnes_top E (n - 1) (by omega) (by omega)
    have hp : 2 ≤ 2 ^ (E - 8 * (n - 1)) := by
      have : 2 ^ 1 ≤ 2 ^ (E - 8 * (n - 1)) := Nat.pow_le_pow_right (by norm_num) (by omega)
      simpa using this
    have hz0 : z = 0 := by
      by_contra hz0
      have := h3 (n - 1) (by omega) (by omega)
      omega
    subst hz0
    obtain ⟨hb, hcv⟩ := h5 (by omega)
    obtain ⟨s1, s2, s3, s4⟩ := countBitsShr_spec _ (byteOf_lt _ (n - 0 - 1)) hb
    rw [if_neg (by omega)] at hcv
    have e1 : n - 0 - 1 = n - 1 := by omega
    rw [e1] at hcv s3 s4
    rw [htop] at hcv s3 s4
    have a1 : countBitsShr 8 (2 ^ (E - 8 * (n - 1)) - 1) 0 - 1 < E - 8 * (n - 1) :=
      pow_lt_pow_two _ _ (by omega)
    have a2 : E - 8 * (n - 1) < countBitsShr 8 (2 ^ (E - 8 * (n - 1)) - 1) 0 + 1 := by
      apply pow_lt_pow_two
      rw [Nat.pow_succ]
      omega
    omega

theorem mant_count_facts (m : List Nat) (M n Y c : Nat) (hle : IsLE m n Y)
    (hY : Y < 2 ^ (8 * (n - 1) + M % 8))
    (hn1 : M ≤ 8 * n) (hn2 : 8 * n ≤ M + 7) (hM : 1 ≤ M) (h32 : 8 * n < 4294967296)
    (hc : countMantissaBits m M n = some c) :
    (Y = 0 → c = 0) ∧ (Y ≠ 0 → 1 ≤ c ∧ c ≤ M) := by
  obtain ⟨z, c1, h1, h2, h3, h4, h5⟩ := countMantissaBits_spec m M n Y hle hn1 hn2 hM h32
  rw [hc] at h1
  have hcc : c = c1 := Option.some.inj h1
  subst hcc
  have hn : 1 ≤ n := by omega
  have hr : M % 8 < 8 := Nat.mod_lt _ (by norm_num)
  refine ⟨?_, ?_⟩
  · intro hY0
    subst hY0
    by_cases hz : z < n
    · exact absurd (byteOf_zero _) (h5 hz).1
    · exact h4 (by omega)
  · intro hYne
    have hz : z < n := by
      by_contra hz
      apply hYne
      apply eq_zero_of_bytes_zero Y n
      · exact Nat.lt_of_lt_of_le hY (Nat.pow_le_pow_right (by norm_num) (by omega))
      · intro k hk
        exact h3 k (by omega)
    obtain ⟨hb, hcv⟩ := h5 hz
    obtain ⟨s1, s2, s3, s4⟩ := countBitsShl_spec _ (byteOf_lt Y z) hb
    have hnowrap : 8 - M % 8 < countBitsShl 8 (byteOf Y z) 0 + 8 * (n - z - 1) := by
      by_cases hzt : z = n - 1
      · subst hzt
        have ht := byteOf_top_lt Y (8 * (n - 1) + M % 8) (n - 1) hY (by omega)
        have e1 : 8 * (n - 1) + M % 8 - 8 * (n - 1) = M % 8 := by omega
        rw [e1] at ht
        have hle2 : 2 ^ (8 - countBitsShl 8 (byteOf Y (n - 1)) 0) ≤ byteOf Y (n - 1) :=
          Nat.le_of_dvd (by omega) (Nat.dvd_of_mod_eq_zero s3)
        have := pow_lt_pow_two _ _ (Nat.lt_of_le_of_lt hle2 ht)
        omega
      · omega
    rw [usub_eq _ _ (by omega) (by omega)] at hcv
    omega

theorem expField_lt (V E M : Nat) : expField V E M < 2 ^ E :=
  Nat.mod_lt _ (Nat.pow_pos (by norm_num))

theorem mantStored_lt (V M : Nat) : mantStored V M < 2 ^ (8 * ((M + 7) / 8 - 1) + M % 8) :=
  Nat.mod_lt _ (Nat.pow_pos (by norm_num))

theorem createGeneric_core (bytes : List Nat) (E M ob nb nmb : Nat) (hb : IsBytes bytes)
    (hE : 1 ≤ E) (hM : 1 ≤ M) (hob8 : 1 + E + M = 8 * ob) (h32 : ob < 536870912)
    (hlen : bytes.length = ob) (hnb1 : E ≤ 8 * nb) (hnb2 : 8 * nb ≤ E + 7)
    (hnm1 : M ≤ 8 * nmb) (hnm2 : 8 * nmb ≤ M + 7) (hnmb : nmb = (M + 7) / 8)
    (hnbe : nb = (E + 7) / 8) :
    ∃ e m ze zm,
      IsLE e nb (expField (leValue bytes) E M) ∧ IsLE m nmb (mantStored (leValue bytes) M) ∧
      countExponentBits e E nb = some ze ∧ countMantissaBits m M nmb = some zm ∧
      ze ≤ E ∧ zm ≤ M ∧
      ((readByte bytes (usub ob 1)).bind fun top =>
        (extractExponent bytes E ob nb (List.replicate nb 0)).bind fun exponent =>
        (extractMantissa bytes M nmb (List.replicate nmb 0)).bind fun mantissa =>
        (countExponentBits exponent E nb).bind fun nNonZeroExponentBits =>
        (cAssert (nNonZeroExponentBits ≤ E)).bind fun _ =>
        (countMantissaBits mantissa M nmb).bind fun nNonZeroMantissaBits =>
        (cAssert (nNonZeroMantissaBits ≤ M)).bind fun _ =>
        (determineType exponent E nb nNonZeroExponentBits nNonZeroMantissaBits).bind
          fun type =>
        some ({
          exponent := exponent
          nExponentBits := E
          nExponentBytes := nb
          nNonZeroExponentBits := nNonZeroExponentBits
          mantissa := mantissa
          nMantissaBits := M
          nMantissaBytes := nmb
          nNonZeroMantissaBits := nNonZeroMantissaBits
          sign := if top &&& (1 <<< 7) ≠ 0 then Sign.Negative else Sign.Positive
          type := type } : FloatInspectorMetaInformation)) =
      some ({
          exponent := e
          nExponentBits := E
          nExponentBytes := nb
          nNonZeroExponentBits := ze
          mantissa := m
          nMantissaBits := M
          nMantissaBytes := nmb
          nNonZeroMantissaBits := zm
          sign := signOf (leValue bytes) (ob - 1)
          type := classify ze E zm (expField (leValue bytes) E M) } : FloatInspectorMetaInformation) := by
  have hobd : (1 + E + M) / 8 = ob := by omega
  have h8 : (1 + E + M) % 8 = 0 := by omega
  obtain ⟨e, he1, he2, he3⟩ := extractExponent_spec bytes E M nb hb hE h8 (by omega)
    (by omega) hnbe
  rw [hobd] at he1
  have hle : IsLE e nb (expField (leValue bytes) E M) := ⟨he2, he3⟩
  obtain ⟨m, hm1, hm2⟩ := extractMantissa_spec bytes M nmb ob hb (by omega) (by omega) hlen
    (by omega)
  have hlm : IsLE m nmb (mantStored (leValue bytes) M) := by
    unfold mantStored; rw [← hnmb]; exact hm2
  obtain ⟨z, ze, hze, -⟩ := countExponentBits_spec e E nb _ hle hnb1 hnb2 hE (by omega)
  obtain ⟨z2, zm, hzm, -⟩ := countMantissaBits_spec m M nmb _ hlm hnm1 hnm2 hM (by omega)
  have hty := determineType_spec e E nb _ ze zm hle (expField_lt _ E M) hnb1 hnb2 hE (by omega)
    (by omega)
  have htop := readByte_byteOf bytes hb (ob - 1) (by omega)
  have hzeE : ze ≤ E := by
    obtain ⟨f1, f2, -⟩ := exp_count_facts e E nb _ ze hle (expField_lt _ E M) hnb1 hnb2 hE
      (by omega) hze
    by_cases hx : expField (leValue bytes) E M = 0
    · have := f1 hx; omega
    · exact (f2 hx).2
  have hzmM : zm ≤ M := by
    have hlt := mantStored_lt (leValue bytes) M
    rw [← hnmb] at hlt
    obtain ⟨f1, f2⟩ := mant_count_facts m M nmb _ zm hlm hlt hnm1 hnm2 hM (by omega) hzm
    by_cases hx : mantStored (leValue bytes) M = 0
    · have := f1 hx; omega
    · exact (f2 hx).2
  have ha1 : cAssert (decide (ze ≤ E)) = some () := by
    unfold cAssert; rw [if_pos (decide_eq_true hzeE)]
  have ha2 : cAssert (decide (zm ≤ M)) = some () := by
    unfold cAssert; rw [if_pos (decide_eq_true hzmM)]
  refine ⟨e, m, ze, zm, hle, hlm, hze, hzm, hzeE, hzmM, ?_⟩
  rw [usub_eq ob 1 (by omega) (by omega), htop, Option.some_bind, he1, Option.some_bind, hm1,
    Option.some_bind, hze, Option.some_bind, ha1, Option.some_bind, hzm, Option.some_bind, ha2,
    Option.some_bind, hty, Option.some_bind]
  rfl

theorem createGeneric_spec (bytes : List Nat) (E M : Nat) (hb : IsBytes bytes)
    (hE : 1 ≤ E) (hM : 1 ≤ M) (h8 : (1 + E + M) % 8 = 0) (h32 : 1 + E + M < 4294967296)
    (hlen : bytes.length = (1 + E + M) / 8) :
    ∃ e m ze zm,
      IsLE e ((E + 7) / 8) (expField (leValue bytes) E M) ∧
      IsLE m ((M + 7) / 8) (mantStored (leValue bytes) M) ∧
      countExponentBits e E ((E + 7) / 8) = some ze ∧
      countMantissaBits m M ((M + 7) / 8) = some zm ∧
      ze ≤ E ∧ zm ≤ M ∧
      FloatInspectorMetaInformationCreateGeneric bytes E M = some ({
          exponent := e
          nExponentBits := E
          nExponentBytes := (E + 7) / 8
          nNonZeroExponentBits := ze
          mantissa := m
          nMantissaBits := M
          nMantissaBytes := (M + 7) / 8
          nNonZeroMantissaBits := zm
          sign := signOf (leValue bytes) ((1 + E + M) / 8 - 1)
          type := classify ze E zm (expField (leValue bytes) E M) } : FloatInspectorMetaInformation) := by
  have hov : (uadd (uadd 1 E) M) >>> 3 = (1 + E + M) / 8 := by
    rw [uadd_eq 1 E (by omega), uadd_eq _ M (by omega), shr3_eq]
  have hnb : (if E % 8 = 0 then E >>> 3 else uadd (E >>> 3) 1) = (E + 7) / 8 := by
    rw [shr3_eq, uadd_eq _ _ (by omega)]
    split <;> omega
  have hnmb : (if M % 8 = 0 then M >>> 3 else uadd (M >>> 3) 1) = (M + 7) / 8 := by
    rw [shr3_eq, uadd_eq _ _ (by omega)]
    split <;> omega
  unfold FloatInspectorMetaInformationCreateGeneric
  simp only [hov, hnb, hnmb]
  exact createGeneric_core bytes E M ((1 + E + M) / 8) ((E + 7) / 8) ((M + 7) / 8) hb hE hM
    (by omega) (by omega) hlen (by omega) (by omega) (by omega) (by omega) rfl rfl

theorem byteOf_succ (X k : Nat) : byteOf X (k + 1) = byteOf (X / 256) k := by
  unfold byteOf
  rw [Nat.shiftRight_eq_div_pow, Nat.shiftRight_eq_div_pow, Nat.mul_succ, Nat.pow_add,
    Nat.mul_comm, ← Nat.div_div_eq_div_mul]

theorem IsLE.leValue_eq (r : List Nat) : ∀ (n X : Nat), IsLE r n X →
    leValue r = X % 2 ^ (8 * n) := by
  induction r with
  | nil =>
    intro n X h
    have : n = 0 := h.1.symm
    subst this
    simp [leValue, Nat.mod_one]
  | cons b rest ih =>
    intro n X h
    obtain ⟨hl, hp⟩ := h
    cases n with
    | zero => simp at hl
    | succ n =>
      have h0 := hp 0 (by omega)
      have hb : b = X % 256 := by
        simp [byteOf] at h0; exact h0
      have hrest : IsLE rest n (X / 256) := by
        refine ⟨by simpa using hl, ?_⟩
        intro k hk
        have := hp (k + 1) (by omega)
        rw [List.getElem?_cons_succ, byteOf_succ] at this
        exact this
      rw [leValue, ih n (X / 256) hrest, hb]
      have e1 : 2 ^ (8 * (n + 1)) = 256 * 2 ^ (8 * n) := by
        rw [Nat.mul_succ, Nat.pow_add]; norm_num [Nat.mul_comm]
      rw [e1, Nat.mod_mul]

theorem IsLE.isBytes (r : List Nat) (n X : Nat) (h : IsLE r n X) : IsBytes r := by
  intro b hb
  obtain ⟨k, hk, hkb⟩ := List.getElem_of_mem hb
  have h1 := h.2 k (by rw [← h.1]; exact hk)
  rw [List.getElem?_eq_getElem hk, hkb] at h1
  rw [Option.some.inj h1]
  exact byteOf_lt X k

theorem mantStored_eq_zero (V M : Nat) (hM : 1 ≤ M) (h : mantField V M = 0) :
    mantStored V M = 0 := by
  unfold mantStored
  unfold mantField at h
  have hd : 2 ^ (8 * ((M + 7) / 8 - 1) + M % 8) ∣ 2 ^ M :=
    Nat.pow_dvd_pow 2 (by omega)
  rw [← Nat.mod_mod_of_dvd V hd, h, Nat.zero_mod]

theorem mantStored_eq_mantField (V M : Nat) (hM : M % 8 ≠ 0) :
    mantStored V M = mantField V M := by
  unfold mantStored mantField
  have : 8 * ((M + 7) / 8 - 1) + M % 8 = M := by omega
  rw [this]

theorem signOf_eq (V i : Nat) :
    signOf V i = if (byteOf V i).testBit 7 = true then Sign.Negative else Sign.Positive := by
  unfold signOf
  by_cases h : byteOf V i &&& (1 <<< 7) = 0
  · have := (and_one_shiftLeft_eq_zero _ 7).mp h
    rw [if_neg (not_not.mpr h), this]
    rfl
  · have : (byteOf V i).testBit 7 = true := by
      cases ht : (byteOf V i).testBit 7
      · exact absurd ((and_one_shiftLeft_eq_zero _ 7).mpr ht) h
      · rfl
    rw [if_pos h, if_pos this]

theorem signOf_negative_iff (V i : Nat) :
    signOf V i = Sign.Negative ↔ (byteOf V i).testBit 7 = true := by
  rw [signOf_eq]
  cases (byteOf V i).testBit 7 <;> simp

theorem signOf_positive_iff (V i : Nat) :
    signOf V i = Sign.Positive ↔ (byteOf V i).testBit 7 = false := by
  rw [signOf_eq]
  cases (byteOf V i).testBit 7 <;> simp

theorem getD_eq_byteOf (bytes : List Nat) (hb : IsBytes bytes) (i : Nat)
    (hi : i < bytes.length) : bytes.getD i 0 = byteOf (leValue bytes) i := by
  have := readByte_byteOf bytes hb i hi
  unfold readByte at this
  rw [List.getD_eq_getElem?_getD, this]
  rfl

/-- The result of a valid call, with every field expressed through the integer
value of the buffer. -/
theorem createGeneric_valid (bytes : List Nat) (E M : Nat) (h : ValidCall bytes E M) :
    ∃ e m ze zm,
      IsLE e ((E + 7) / 8) (expField (leValue bytes) E M) ∧
      IsLE m ((M + 7) / 8) (mantStored (leValue bytes) M) ∧
      (expField (leValue bytes) E M = 0 → ze = 0) ∧
      (expField (leValue bytes) E M ≠ 0 → 1 ≤ ze ∧ ze ≤ E) ∧
      (expField (leValue bytes) E M = 2 ^ E - 1 → ze = E) ∧
      (mantStored (leValue bytes) M = 0 → zm = 0) ∧
      (mantStored (leValue bytes) M ≠ 0 → 1 ≤ zm ∧ zm ≤ M) ∧
      ze ≤ E ∧ zm ≤ M ∧
      FloatInspectorMetaInformationCreateGeneric bytes E M = some ({
          exponent := e
          nExponentBits := E
          nExponentBytes := (E + 7) / 8
          nNonZeroExponentBits := ze
          mantissa := m
          nMantissaBits := M
          nMantissaBytes := (M + 7) / 8
          nNonZeroMantissaBits := zm
          sign := signOf (leValue bytes) ((1 + E + M) / 8 - 1)
          type := classify ze E zm (expField (leValue bytes) E M) } :
            FloatInspectorMetaInformation) := by
  obtain ⟨hb, hE, hM, h8, h32, hlen⟩ := h
  obtain ⟨e, m, ze, zm, h1, h2, h3, h4, h5, h6, h7⟩ :=
    createGeneric_spec bytes E M hb hE hM h8 h32 hlen
  obtain ⟨f1, f2, f3⟩ := exp_count_facts e E ((E + 7) / 8) _ ze h1 (expField_lt _ E M)
    (by omega) (by omega) hE (by omega) h3
  obtain ⟨g1, g2⟩ := mant_count_facts m M ((M + 7) / 8) _ zm h2 (mantStored_lt _ M)
    (by omega) (by omega) hM (by omega) h4
  exact ⟨e, m, ze, zm, h1, h2, f1, f2, f3, g1, g2, h5, h6, h7⟩

/-! ## The claims about `FloatInspectorMetaInformationCreateGeneric` -/

/-- C1, at the failing input: the x87 quiet NaN `7FFF C000 0000 0000 0000` as a
long double (`E = 15`, `M = 64`).  All exponent bits are set and the mantissa
is not zero, yet the result is `Infinity`: the mantissa's top byte was cleared
by the empty mask, so its count is 0. -/
theorem c1_quiet_nan_long_double_classified_infinity :
    ValidCall [0, 0, 0, 0, 0, 0, 0, 0xC0, 0xFF, 0x7F] 15 64 ∧
    expField (leValue [0, 0, 0, 0, 0, 0, 0, 0xC0, 0xFF, 0x7F]) 15 64 = 2 ^ 15 - 1 ∧
    mantField (leValue [0, 0, 0, 0, 0, 0, 0, 0xC0, 0xFF, 0x7F]) 64 ≠ 0 ∧
    (FloatInspectorMetaInformationCreateGeneric
      [0, 0, 0, 0, 0, 0, 0, 0xC0, 0xFF, 0x7F] 15 64).map
        (fun r => (r.nNonZeroMantissaBits, r.type)) = some (0, FloatType.Infinity) := by
  decide

/-- C2: when all `E` exponent bits are 1 and all `M` mantissa bits are 0, the
call returns type `Infinity` with `nNonZeroExponentBits = E` and
`nNonZeroMantissaBits = 0`; the sign bit is unconstrained. -/
theorem c2_all_ones_exponent_zero_mantissa_is_infinity (bytes : List Nat) (E M : Nat)
    (h : ValidCall bytes E M)
    (hexp : expField (leValue bytes) E M = 2 ^ E - 1)
    (hmant : mantField (leValue bytes) M = 0) :
    ∃ r, FloatInspectorMetaInformationCreateGeneric bytes E M = some r ∧
      r.type = FloatType.Infinity ∧ r.nNonZeroExponentBits = E ∧
      r.nNonZeroMantissaBits = 0 := by
  obtain ⟨e, m, ze, zm, -, -, -, -, f3, g1, -, -, -, hr⟩ := createGeneric_valid bytes E M h
  have hze : ze = E := f3 hexp
  have hzm : zm = 0 := g1 (mantStored_eq_zero _ M h.2.2.1 hmant)
  have hE : E ≠ 0 := by have := h.2.1; omega
  refine ⟨_, hr, ?_, hze, hzm⟩
  show classify ze E zm _ = _
  unfold classify
  rw [hze, hzm, if_neg hE, if_pos rfl, if_pos hexp, if_pos rfl]

/-- C2 at the float patterns `0x7F800000` and `0xFF800000`. -/
theorem c2_witness :
    (∃ r, FloatInspectorMetaInformationCreateGeneric [0, 0, 0x80, 0x7F] 8 23 = some r ∧
      r.type = FloatType.Infinity ∧ r.nNonZeroExponentBits = 8 ∧
      r.nNonZeroMantissaBits = 0) ∧
    (∃ r, FloatInspectorMetaInformationCreateGeneric [0, 0, 0x80, 0xFF] 8 23 = some r ∧
      r.type = FloatType.Infinity ∧ r.nNonZeroExponentBits = 8 ∧
      r.nNonZeroMantissaBits = 0) :=
  ⟨c2_all_ones_exponent_zero_mantissa_is_infinity [0, 0, 0x80, 0x7F] 8 23
      (by decide) (by decide) (by decide),
   c2_all_ones_exponent_zero_mantissa_is_infinity [0, 0, 0x80, 0xFF] 8 23
      (by decide) (by decide) (by decide)⟩

/-- C3: when the exponent field `e` satisfies `0 < e < 2^E - 1`, the call
returns type `Normalized`, whatever the mantissa and the sign are. -/
theorem c3_intermediate_exponent_is_normalized (bytes : List Nat) (E M : Nat)
    (h : ValidCall bytes E M)
    (hlo : 0 < expField (leValue bytes) E M)
    (hhi : expField (leValue bytes) E M < 2 ^ E - 1) :
    ∃ r, FloatInspectorMetaInformationCreateGeneric bytes E M = some r ∧
      r.type = FloatType.Normalized := by
  obtain ⟨e, m, ze, zm, -, -, -, f2, -, -, -, -, -, hr⟩ := createGeneric_valid bytes E M h
  have hze : ze ≠ 0 := by have := (f2 (by omega)).1; omega
  have hx : ¬ expField (leValue bytes) E M = 2 ^ E - 1 := by omega
  refine ⟨_, hr, ?_⟩
  show classify ze E zm _ = _
  unfold classify
  rw [if_neg hze, if_neg hx]
  split <;> rfl

/-- C3 at `FLT_MAX` (`0x7F7FFFFF`), whose exponent `0xFE` has
`nNonZeroExponentBits = 8 = E`. -/
theorem c3_witness :
    (FloatInspectorMetaInformationCreateGeneric [0xFF, 0xFF, 0x7F, 0x7F] 8 23).map
      (fun r => r.nNonZeroExponentBits) = some 8 ∧
    ∃ r, FloatInspectorMetaInformationCreateGeneric [0xFF, 0xFF, 0x7F, 0x7F] 8 23 = some r ∧
      r.type = FloatType.Normalized :=
  ⟨by decide, c3_intermediate_exponent_is_normalized [0xFF, 0xFF, 0x7F, 0x7F] 8 23
    (by decide) (by decide) (by decide)⟩

/-- C4: when all exponent bits and all mantissa bits are 0, the call returns
type `Denormalized` with both counts 0; the sign bit is unconstrained. -/
theorem c4_zero_fields_are_denormalized (bytes : List Nat) (E M : Nat)
    (h : ValidCall bytes E M)
    (hexp : expField (leValue bytes) E M = 0)
    (hmant : mantField (leValue bytes) M = 0) :
    ∃ r, FloatInspectorMetaInformationCreateGeneric bytes E M = some r ∧
      r.type = FloatType.Denormalized ∧ r.nNonZeroExponentBits = 0 ∧
      r.nNonZeroMantissaBits = 0 := by
  obtain ⟨e, m, ze, zm, -, -, f1, -, -, g1, -, -, -, hr⟩ := createGeneric_valid bytes E M h
  have hze : ze = 0 := f1 hexp
  have hzm : zm = 0 := g1 (mantStored_eq_zero _ M h.2.2.1 hmant)
  refine ⟨_, hr, ?_, hze, hzm⟩
  show classify ze E zm _ = _
  unfold classify
  rw [if_pos hze]

/-- C4 at the float patterns `0x00000000` and `0x80000000`. -/
theorem c4_witness :
    (∃ r, FloatInspectorMetaInformationCreateGeneric [0, 0, 0, 0] 8 23 = some r ∧
      r.type = FloatType.Denormalized ∧ r.nNonZeroExponentBits = 0 ∧
      r.nNonZeroMantissaBits = 0) ∧
    (∃ r, FloatInspectorMetaInformationCreateGeneric [0, 0, 0, 0x80] 8 23 = some r ∧
      r.type = FloatType.Denormalized ∧ r.nNonZeroExponentBits = 0 ∧
      r.nNonZeroMantissaBits = 0) :=
  ⟨c4_zero_fields_are_denormalized [0, 0, 0, 0] 8 23 (by decide) (by decide) (by decide),
   c4_zero_fields_are_denormalized [0, 0, 0, 0x80] 8 23 (by decide) (by decide) (by decide)⟩

/-- C5: the call returns a result (both `assert` statements pass) with
`nNonZeroExponentBits ≤ nExponentBits = E` and
`nNonZeroMantissaBits ≤ nMantissaBits = M`.  The counts are those of the
`unsigned int` computation: a subtraction that wrapped below zero would give a
value of at least `2^32 - 8`, which exceeds every admissible `M`. -/
theorem c5_counts_within_widths (bytes : List Nat) (E M : Nat) (h : ValidCall bytes E M) :
    ∃ r, FloatInspectorMetaInformationCreateGeneric bytes E M = some r ∧
      r.nExponentBits = E ∧ r.nMantissaBits = M ∧
      r.nNonZeroExponentBits ≤ r.nExponentBits ∧
      r.nNonZeroMantissaBits ≤ r.nMantissaBits := by
  obtain ⟨e, m, ze, zm, -, -, -, -, -, -, -, h5, h6, hr⟩ := createGeneric_valid bytes E M h
  exact ⟨_, hr, rfl, rfl, h5, h6⟩

/-- C5 at the double pattern of `-1.0`. -/
theorem c5_witness :
    ∃ r, FloatInspectorMetaInformationCreateGeneric [0, 0, 0, 0, 0, 0, 0xF0, 0xBF] 11 52
        = some r ∧
      r.nExponentBits = 11 ∧ r.nMantissaBits = 52 ∧
      r.nNonZeroExponentBits ≤ r.nExponentBits ∧
      r.nNonZeroMantissaBits ≤ r.nMantissaBits :=
  c5_counts_within_widths [0, 0, 0, 0, 0, 0, 0xF0, 0xBF] 11 52 (by decide)

/-- C6, counterexample: two pairs of buffers with equal counts and different
types.  The float patterns `0x7F000000` (exponent `0xFE`, mantissa 0) and
`0x7F800000` (exponent `0xFF`, mantissa 0) have the same
`nNonZeroExponentBits = 8`, the same `nExponentBits = 8` and the same
`nNonZeroMantissaBits = 0`, but the first is `Normalized` and the second
`Infinity`.  For `E = M = 4`, where `1 + E + M = 9` is not a whole number of
bytes, the buffers `[0x79, 0]` and `[0x71, 0]` have the same counts `(4, 4, 4)`
and even the same bits `M .. M + E - 1` (both `7`), but the first is `NaN` and
the second `Normalized`: the exponent bits are then taken from bits `3 .. 6` of
byte 0. -/
theorem c6_same_counts_different_type :
    ((FloatInspectorMetaInformationCreateGeneric [0, 0, 0, 0x7F] 8 23).map
      (fun r => (r.nNonZeroExponentBits, r.nExponentBits, r.nNonZeroMantissaBits, r.type))
        = some (8, 8, 0, FloatType.Normalized) ∧
     (FloatInspectorMetaInformationCreateGeneric [0, 0, 0x80, 0x7F] 8 23).map
      (fun r => (r.nNonZeroExponentBits, r.nExponentBits, r.nNonZeroMantissaBits, r.type))
        = some (8, 8, 0, FloatType.Infinity)) ∧
    ((FloatInspectorMetaInformationCreateGeneric [0x79, 0] 4 4).map
      (fun r => (r.nNonZeroExponentBits, r.nExponentBits, r.nNonZeroMantissaBits, r.type))
        = some (4, 4, 4, FloatType.NaN) ∧
     (FloatInspectorMetaInformationCreateGeneric [0x71, 0] 4 4).map
      (fun r => (r.nNonZeroExponentBits, r.nExponentBits, r.nNonZeroMantissaBits, r.type))
        = some (4, 4, 4, FloatType.Normalized) ∧
     expField (leValue [0x79, 0]) 4 4 = 7 ∧ expField (leValue [0x71, 0]) 4 4 = 7) := by
  decide

/-- C6, amended: for widths `E ≥ 1`, `M ≥ 1` with `1 + E + M` a multiple of 8
(below `2 ^ 32`) and buffers of `(1 + E + M) / 8` bytes, the type is a function
of `nNonZeroExponentBits`, `nExponentBits`, `nNonZeroMantissaBits` and of
whether all `E` exponent bits (bits `M .. M + E - 1` of the little-endian
value) are set.  Two such buffers for the same widths whose results agree on
the two counts, and of which either both or neither has an all-ones exponent
field, get the same type. -/
theorem c6_type_determined_by_counts_and_saturation (b1 b2 : List Nat) (E M : Nat)
    (r1 r2 : FloatInspectorMetaInformation)
    (h1 : ValidCall b1 E M) (h2 : ValidCall b2 E M)
    (hr1 : FloatInspectorMetaInformationCreateGeneric b1 E M = some r1)
    (hr2 : FloatInspectorMetaInformationCreateGeneric b2 E M = some r2)
    (hze : r1.nNonZeroExponentBits = r2.nNonZeroExponentBits)
    (hzm : r1.nNonZeroMantissaBits = r2.nNonZeroMantissaBits)
    (hsat : expField (leValue b1) E M = 2 ^ E - 1 ↔ expField (leValue b2) E M = 2 ^ E - 1) :
    r1.type = r2.type := by
  obtain ⟨e1, m1, ze1, zm1, -, -, -, -, -, -, -, -, -, hs1⟩ := createGeneric_valid b1 E M h1
  obtain ⟨e2, m2, ze2, zm2, -, -, -, -, -, -, -, -, -, hs2⟩ := createGeneric_valid b2 E M h2
  rw [hr1] at hs1
  rw [hr2] at hs2
  have q1 := Option.some.inj hs1
  have q2 := Option.some.inj hs2
  subst q1 q2
  simp only at hze hzm
  subst hze hzm
  show classify _ _ _ _ = classify _ _ _ _
  unfold classify
  by_cases hx : expField (leValue b1) E M = 2 ^ E - 1
  · rw [if_pos hx, if_pos (hsat.mp hx)]
  · rw [if_neg hx, if_neg (fun h => hx (hsat.mpr h))]

/-- C6 amended, at the float patterns of `+Infinity` and `-Infinity`. -/
theorem c6_witness :
    (FloatInspectorMetaInformationCreateGeneric [0, 0, 0x80, 0x7F] 8 23).map (fun r => r.type)
      = (FloatInspectorMetaInformationCreateGeneric [0, 0, 0x80, 0xFF] 8 23).map
          (fun r => r.type) :=
  congrArg some (c6_type_determined_by_counts_and_saturation
    [0, 0, 0x80, 0x7F] [0, 0, 0x80, 0xFF] 8 23
    { exponent := [255], nExponentBits := 8, nExponentBytes := 1, nNonZeroExponentBits := 8,
      mantissa := [0, 0, 0], nMantissaBits := 23, nMantissaBytes := 3,
      nNonZeroMantissaBits := 0, sign := Sign.Positive, type := FloatType.Infinity }
    { exponent := [255], nExponentBits := 8, nExponentBytes := 1, nNonZeroExponentBits := 8,
      mantissa := [0, 0, 0], nMantissaBits := 23, nMantissaBytes := 3,
      nNonZeroMantissaBits := 0, sign := Sign.Negative, type := FloatType.Infinity }
    (by decide) (by decide) (by decide) (by decide) rfl rfl (by decide))

/-- C7: the five concrete single-precision cases (`E = 8`, `M = 23`), each
32-bit pattern given as its 4 bytes, least significant first. -/
theorem c7_single_precision_cases :
    FloatInspectorMetaInformationCreateGeneric (leBytes 4 0x00000000) 8 23 = some
      { exponent := [0], nExponentBits := 8, nExponentBytes := 1, nNonZeroExponentBits := 0,
        mantissa := [0, 0, 0], nMantissaBits := 23, nMantissaBytes := 3,
        nNonZeroMantissaBits := 0, sign := Sign.Positive, type := FloatType.Denormalized } ∧
    FloatInspectorMetaInformationCreateGeneric (leBytes 4 0x3F800000) 8 23 = some
      { exponent := [0x7F], nExponentBits := 8, nExponentBytes := 1, nNonZeroExponentBits := 7,
        mantissa := [0, 0, 0], nMantissaBits := 23, nMantissaBytes := 3,
        nNonZeroMantissaBits := 0, sign := Sign.Positive, type := FloatType.Normalized } ∧
    (FloatInspectorMetaInformationCreateGeneric (leBytes 4 0x7F800000) 8 23).map
      (fun r => (r.type, r.sign)) = some (FloatType.Infinity, Sign.Positive) ∧
    (FloatInspectorMetaInformationCreateGeneric (leBytes 4 0x7FC00000) 8 23).map
      (fun r => r.type) = some FloatType.NaN ∧
    (FloatInspectorMetaInformationCreateGeneric (leBytes 4 0xFF800000) 8 23).map
      (fun r => (r.type, r.sign)) = some (FloatType.Infinity, Sign.Negative) := by
  decide

/-- C8, at the failing input: the long double `1.0`
(`3FFF 8000 0000 0000 0000`, `E = 15`, `M = 64`).  The low 64 bits of the
buffer are `0x8000000000000000`, but the returned mantissa bytes are all zero:
with `M % 8 = 0` the mask is empty and the last mantissa byte is cleared. -/
theorem c8_long_double_one_mantissa_top_byte_cleared :
    ValidCall [0, 0, 0, 0, 0, 0, 0, 0x80, 0xFF, 0x3F] 15 64 ∧
    mantField (leValue [0, 0, 0, 0, 0, 0, 0, 0x80, 0xFF, 0x3F]) 64 = 0x8000000000000000 ∧
    (FloatInspectorMetaInformationCreateGeneric
      [0, 0, 0, 0, 0, 0, 0, 0x80, 0xFF, 0x3F] 15 64).map
        (fun r => (r.mantissa, leValue r.mantissa)) = some ([0, 0, 0, 0, 0, 0, 0, 0], 0) := by
  decide

/-- C9: the returned exponent bytes number `ceil(E/8)` and, read least
significant byte first, are `(V >> M) mod 2^E`, where `V` is the value of the
buffer: the `E` bits below the sign bit, repacked from bit 0.  Each entry is a
byte and the last one has no bit set at or above position `E - 8 (ceil(E/8) - 1)`. -/
theorem c9_exponent_bytes_are_the_exponent_field (bytes : List Nat) (E M : Nat)
    (h : ValidCall bytes E M) :
    ∃ r, FloatInspectorMetaInformationCreateGeneric bytes E M = some r ∧
      r.exponent.length = (E + 7) / 8 ∧ r.nExponentBytes = (E + 7) / 8 ∧
      leValue r.exponent = (leValue bytes >>> M) % 2 ^ E ∧
      IsBytes r.exponent ∧
      r.exponent.getD ((E + 7) / 8 - 1) 0 < 2 ^ (E - 8 * ((E + 7) / 8 - 1)) := by
  obtain ⟨e, m, ze, zm, hle, -, -, -, -, -, -, -, -, hr⟩ := createGeneric_valid bytes E M h
  have hE := h.2.1
  have hlt := expField_lt (leValue bytes) E M
  have hval : leValue e = expField (leValue bytes) E M := by
    rw [IsLE.leValue_eq e _ _ hle]
    apply Nat.mod_eq_of_lt
    exact Nat.lt_of_lt_of_le hlt (Nat.pow_le_pow_right (by norm_num) (by omega))
  refine ⟨_, hr, hle.1, rfl, hval, IsLE.isBytes e _ _ hle, ?_⟩
  show e.getD _ 0 < _
  rw [List.getD_eq_getElem?_getD, hle.2 _ (by omega)]
  exact byteOf_top_lt _ E _ hlt (by omega)

/-- C9 at `E = 11`, `M = 52` (the double `1.0`, exponent `0x3FF`) and at the
width `E = 5`, `M = 10`, which is none of 8, 11 and 15. -/
theorem c9_witness :
    (∃ r, FloatInspectorMetaInformationCreateGeneric [0, 0, 0, 0, 0, 0, 0xF0, 0x3F] 11 52
        = some r ∧
      r.exponent.length = (11 + 7) / 8 ∧ r.nExponentBytes = (11 + 7) / 8 ∧
      leValue r.exponent = (leValue [0, 0, 0, 0, 0, 0, 0xF0, 0x3F] >>> 52) % 2 ^ 11 ∧
      IsBytes r.exponent ∧
      r.exponent.getD ((11 + 7) / 8 - 1) 0 < 2 ^ (11 - 8 * ((11 + 7) / 8 - 1))) ∧
    (∃ r, FloatInspectorMetaInformationCreateGeneric [0x00, 0x3C] 5 10 = some r ∧
      r.exponent.length = (5 + 7) / 8 ∧ r.nExponentBytes = (5 + 7) / 8 ∧
      leValue r.exponent = (leValue [0x00, 0x3C] >>> 10) % 2 ^ 5 ∧
      IsBytes r.exponent ∧
      r.exponent.getD ((5 + 7) / 8 - 1) 0 < 2 ^ (5 - 8 * ((5 + 7) / 8 - 1))) :=
  ⟨c9_exponent_bytes_are_the_exponent_field [0, 0, 0, 0, 0, 0, 0xF0, 0x3F] 11 52 (by decide),
   c9_exponent_bytes_are_the_exponent_field [0x00, 0x3C] 5 10 (by decide)⟩

/-- C10, counterexample: `E = 4`, `M = 4` (9 bits, so `ceil(9/8) = 2` bytes) and
the buffer `80 00`.  Bit 7 of the byte at index `ceil(9/8) - 1 = 1` is clear,
yet the sign returned is `Negative`: the function reads the byte at index
`(9 >> 3) - 1 = 0`. -/
theorem c10_sign_byte_index_rounds_down :
    IsBytes [0x80, 0x00] ∧ [0x80, 0x00].length = (1 + 4 + 4 + 7) / 8 ∧
    ([0x80, 0x00].getD ((1 + 4 + 4 + 7) / 8 - 1) 0).testBit 7 = false ∧
    (FloatInspectorMetaInformationCreateGeneric [0x80, 0x00] 4 4).map (fun r => r.sign)
      = some Sign.Negative := by
  decide

/-- C10, amended: when `1 + E + M` is a multiple of 8 and the buffer has
`(1 + E + M) / 8` bytes, the sign returned is `Negative` exactly when bit 7 of
the last byte (index `(1 + E + M) / 8 - 1`) is set, and `Positive` otherwise. -/
theorem c10_sign_is_top_bit_of_last_byte (bytes : List Nat) (E M : Nat)
    (h : ValidCall bytes E M) :
    ∃ r, FloatInspectorMetaInformationCreateGeneric bytes E M = some r ∧
      (r.sign = Sign.Negative ↔ (bytes.getD ((1 + E + M) / 8 - 1) 0).testBit 7 = true) ∧
      (r.sign = Sign.Positive ↔ (bytes.getD ((1 + E + M) / 8 - 1) 0).testBit 7 = false) := by
  obtain ⟨e, m, ze, zm, -, -, -, -, -, -, -, -, -, hr⟩ := createGeneric_valid bytes E M h
  obtain ⟨hb, hE, hM, h8, h32, hlen⟩ := h
  have hg := getD_eq_byteOf bytes hb ((1 + E + M) / 8 - 1) (by omega)
  refine ⟨_, hr, ?_, ?_⟩
  · rw [hg]; exact signOf_negative_iff _ _
  · rw [hg]; exact signOf_positive_iff _ _

/-- C10 amended, at the float patterns of `-1.0` and `1.0`. -/
theorem c10_witness :
    (∃ r, FloatInspectorMetaInformationCreateGeneric [0, 0, 0x80, 0xBF] 8 23 = some r ∧
      (r.sign = Sign.Negative ↔
        ([0, 0, 0x80, 0xBF].getD ((1 + 8 + 23) / 8 - 1) 0).testBit 7 = true) ∧
      (r.sign = Sign.Positive ↔
        ([0, 0, 0x80, 0xBF].getD ((1 + 8 + 23) / 8 - 1) 0).testBit 7 = false)) ∧
    (∃ r, FloatInspectorMetaInformationCreateGeneric [0, 0, 0x80, 0x3F] 8 23 = some r ∧
      (r.sign = Sign.Negative ↔
        ([0, 0, 0x80, 0x3F].getD ((1 + 8 + 23) / 8 - 1) 0).testBit 7 = true) ∧
      (r.sign = Sign.Positive ↔
        ([0, 0, 0x80, 0x3F].getD ((1 + 8 + 23) / 8 - 1) 0).testBit 7 = false)) :=
  ⟨c10_sign_is_top_bit_of_last_byte [0, 0, 0x80, 0xBF] 8 23 (by decide),
   c10_sign_is_top_bit_of_last_byte [0, 0, 0x80, 0x3F] 8 23 (by decide)⟩

/-! ## The claims about the two counts -/

/-- C11, at the failing input: `DBL_MIN` (`0x0010000000000000`, `E = 11`,
`M = 52`), one of the values of the test driver.  Its exponent field is 1, of
bit length 1, stored as the bytes `01 00`; the most significant exponent byte
is zero and the count returned is `11 % 8 + 0 + 1 = 4`. -/
theorem c11_dbl_min_exponent_count_is_four :
    ValidCall [0, 0, 0, 0, 0, 0, 0x10, 0x00] 11 52 ∧
    expField (leValue [0, 0, 0, 0, 0, 0, 0x10, 0x00]) 11 52 = 1 ∧
    (FloatInspectorMetaInformationCreateGeneric [0, 0, 0, 0, 0, 0, 0x10, 0x00] 11 52).map
      (fun r => (r.exponent, r.nNonZeroExponentBits)) = some ([1, 0], 4) := by
  decide

/-- C12, at the failing input: `LDBL_MAX` (`7FFE FFFF FFFF FFFF FFFF`, `E = 15`,
`M = 64`), one of the values of the test driver.  The returned mantissa bytes
are `FF FF FF FF FF FF FF 00`, a value with no trailing zero bit, so `M` minus
the number of trailing zero bits is 64; the count returned is 56. -/
theorem c12_ldbl_max_mantissa_count_is_56 :
    ValidCall [0xFF, 0xFF, 0xFF, 0xFF, 0xFF, 0xFF, 0xFF, 0xFF, 0xFE, 0x7F] 15 64 ∧
    (FloatInspectorMetaInformationCreateGeneric
      [0xFF, 0xFF, 0xFF, 0xFF, 0xFF, 0xFF, 0xFF, 0xFF, 0xFE, 0x7F] 15 64).map
        (fun r => (r.mantissa, leValue r.mantissa % 2, r.nNonZeroMantissaBits))
      = some ([0xFF, 0xFF, 0xFF, 0xFF, 0xFF, 0xFF, 0xFF, 0x00], 1, 56) := by
  decide

/-! ## The claims about `FloatInspectorStatisticsUpdateWithMetaInformation` -/

theorem uadd_one (c : Nat) : uadd c 1 = (c + 1) % 4294967296 := rfl

theorem incrementCell_spec (a : List Nat) (i : Nat) (hi : i < a.length) :
    ∃ b, incrementCell a i = some b ∧ b.length = a.length ∧
      b.getD i 0 = (a.getD i 0 + 1) % 4294967296 ∧
      ∀ j, j ≠ i → b[j]? = a[j]? := by
  refine ⟨a.set i (uadd a[i] 1), ?_, ?_, ?_, ?_⟩
  · unfold incrementCell
    rw [List.getElem?_eq_getElem hi, Option.some_bind]
  · rw [List.length_set]
  · rw [List.getD_eq_getElem?_getD, List.getD_eq_getElem?_getD, List.getElem?_set_self hi,
      List.getElem?_eq_getElem hi]
    rfl
  · intro j hj
    rw [List.getElem?_set_ne (Ne.symm hj)]

theorem flat_index_lt (E M ze zm : Nat) (hze : ze ≤ E) (hzm : zm ≤ M) :
    zm * (E + 1) + ze < (E + 1) * (M + 1) := by
  have h1 : zm * (E + 1) ≤ M * (E + 1) := Nat.mul_le_mul_right _ hzm
  have h2 : (E + 1) * (M + 1) = M * (E + 1) + (E + 1) := by ring
  omega

theorem flat_index_eq (E M ze zm : Nat) (hze : ze ≤ E) (hzm : zm ≤ M)
    (h32 : (E + 1) * (M + 1) < 4294967296) :
    uadd (umul zm (uadd E 1)) ze = zm * (E + 1) + ze := by
  have h := flat_index_lt E M ze zm hze hzm
  have h0 : E + 1 ≤ (E + 1) * (M + 1) := Nat.le_mul_of_pos_right _ (by omega)
  rw [uadd_eq E 1 (by omega), umul_eq _ _ (by omega), uadd_eq _ _ (by omega)]

theorem length_mallocCells (contents : Nat → Nat) (n : Nat) :
    (mallocCells contents n).length = n := by
  unfold mallocCells
  rw [List.length_map, List.length_range]

/-- The float profile of the x86-64 platform has widths `(8, 23)`, whatever the
allocated memory holds. -/
theorem createFloat_isProfile (m1 m2 m3 m4 : Nat → Nat) :
    IsProfile (FloatInspectorStatisticsCreateFloat x86_64 m1 m2 m3 m4) 8 23 := by
  unfold IsProfile FloatInspectorStatisticsCreateFloat
  simp only [length_mallocCells]
  decide

/-- The double profile of the x86-64 platform has widths `(11, 52)`. -/
theorem createDouble_isProfile (m1 m2 m3 m4 : Nat → Nat) :
    IsProfile (FloatInspectorStatisticsCreateDouble x86_64 m1 m2 m3 m4) 11 52 := by
  unfold IsProfile FloatInspectorStatisticsCreateDouble
  simp only [length_mallocCells]
  decide

/-- The long double profile of the x86-64 platform has widths `(64, 63)`. -/
theorem createLongDouble_isProfile (m1 m2 m3 m4 : Nat → Nat) :
    IsProfile (FloatInspectorStatisticsCreateLongDouble x86_64 m1 m2 m3 m4) 64 63 := by
  unfold IsProfile FloatInspectorStatisticsCreateLongDouble
  simp only [length_mallocCells]
  decide

/-- C13: for a profile with widths `(E, M)` and a meta of type `Normalized`
whose counts are within the widths, the update returns and increases by 1 (as
`unsigned int`, that is modulo `2^32`) `nEntries`, `nNormalized`, the counter of
the meta's sign and the cell at flat index
`nNonZeroMantissaBits * (E + 1) + nNonZeroExponentBits` of the normalized
histogram of that sign; the other counters, the other cells of that histogram
and the three other histograms are unchanged. -/
theorem c13_update_normalized (s : _FloatInspectorStatistics)
    (meta : FloatInspectorMetaInformation) (E M : Nat) (hp : IsProfile s E M)
    (hty : meta.type = FloatType.Normalized)
    (hze : meta.nNonZeroExponentBits ≤ E) (hzm : meta.nNonZeroMantissaBits ≤ M) :
    ∃ s1, FloatInspectorStatisticsUpdateWithMetaInformation s meta = some s1 ∧
      s1.nEntries = (s.nEntries + 1) % 4294967296 ∧
      s1.nNormalized = (s.nNormalized + 1) % 4294967296 ∧
      signCounter s1 meta.sign = (signCounter s meta.sign + 1) % 4294967296 ∧
      meta.nNonZeroMantissaBits * (E + 1) + meta.nNonZeroExponentBits
        < (normalizedHistogram s meta.sign).length ∧
      (normalizedHistogram s1 meta.sign).getD
          (meta.nNonZeroMantissaBits * (E + 1) + meta.nNonZeroExponentBits) 0
        = ((normalizedHistogram s meta.sign).getD
            (meta.nNonZeroMantissaBits * (E + 1) + meta.nNonZeroExponentBits) 0 + 1)
          % 4294967296 ∧
      (normalizedHistogram s1 meta.sign).length = (normalizedHistogram s meta.sign).length ∧
      (∀ j, j ≠ meta.nNonZeroMantissaBits * (E + 1) + meta.nNonZeroExponentBits →
        (normalizedHistogram s1 meta.sign)[j]? = (normalizedHistogram s meta.sign)[j]?) ∧
      signCounter s1 (otherSign meta.sign) = signCounter s (otherSign meta.sign) ∧
      s1.nDenormalized = s.nDenormalized ∧ s1.nNaN = s.nNaN ∧ s1.nInf = s.nInf ∧
      normalizedHistogram s1 (otherSign meta.sign)
        = normalizedHistogram s (otherSign meta.sign) ∧
      denormalizedHistogram s1 Sign.Positive = denormalizedHistogram s Sign.Positive ∧
      denormalizedHistogram s1 Sign.Negative = denormalizedHistogram s Sign.Negative ∧
      s1.type = s.type ∧ s1.nBits = s.nBits ∧ s1.nExponentBits = s.nExponentBits ∧
      s1.nMantissaBits = s.nMantissaBits := by
  obtain ⟨hE, hM, hnp, hdp, hnn, hdn, h32⟩ := hp
  have hidx := flat_index_eq E M _ _ hze hzm h32
  have hlt := flat_index_lt E M _ _ hze hzm
  cases hsg : meta.sign with
  | Positive =>
    obtain ⟨b, hb1, hb2, hb3, hb4⟩ := incrementCell_spec s.nNonZeroBitsNormalizedPositive
      (meta.nNonZeroMantissaBits * (E + 1) + meta.nNonZeroExponentBits) (by rw [hnp]; exact hlt)
    refine ⟨{ s with
        nEntries := uadd s.nEntries 1
        nNormalized := uadd s.nNormalized 1
        nPositive := uadd s.nPositive 1
        nNonZeroBitsNormalizedPositive := b }, ?_, rfl, rfl, rfl, ?_, hb3, hb2, hb4, rfl, rfl,
      rfl, rfl, rfl, rfl, rfl, rfl, rfl, rfl, rfl⟩
    · unfold FloatInspectorStatisticsUpdateWithMetaInformation
      simp only [hty, hsg, hE, hidx, if_true]
      rw [hb1, Option.some_bind]
    · show _ < s.nNonZeroBitsNormalizedPositive.length
      rw [hnp]; exact hlt
  | Negative =>
    obtain ⟨b, hb1, hb2, hb3, hb4⟩ := incrementCell_spec s.nNonZeroBitsNormalizedNegative
      (meta.nNonZeroMantissaBits * (E + 1) + meta.nNonZeroExponentBits) (by rw [hnn]; exact hlt)
    refine ⟨{ s with
        nEntries := uadd s.nEntries 1
        nNormalized := uadd s.nNormalized 1
        nNegative := uadd s.nNegative 1
        nNonZeroBitsNormalizedNegative := b }, ?_, rfl, rfl, rfl, ?_, hb3, hb2, hb4, rfl, rfl,
      rfl, rfl, rfl, rfl, rfl, rfl, rfl, rfl, rfl⟩
    · unfold FloatInspectorStatisticsUpdateWithMetaInformation
      simp only [hty, hsg, hE, hidx, if_false, reduceCtorEq]
      rw [hb1, Option.some_bind]
    · show _ < s.nNonZeroBitsNormalizedNegative.length
      rw [hnn]; exact hlt

/-- C13 at the float profile and the meta of `1.0f` (`Normalized`, `Positive`,
counts 7 and 0): the cell at flat index `0 * 9 + 7` goes from 0 to 1. -/
theorem c13_witness :
    ∃ s1, FloatInspectorStatisticsUpdateWithMetaInformation
        (FloatInspectorStatisticsCreateFloat x86_64 (fun _ => 0) (fun _ => 0) (fun _ => 0)
          (fun _ => 0))
        { exponent := [0x7F], nExponentBits := 8, nExponentBytes := 1,
          nNonZeroExponentBits := 7, mantissa := [0, 0, 0], nMantissaBits := 23,
          nMantissaBytes := 3, nNonZeroMantissaBits := 0, sign := Sign.Positive,
          type := FloatType.Normalized } = some s1 ∧
      s1.nEntries = 1 ∧ s1.nNormalized = 1 ∧
      s1.nNonZeroBitsNormalizedPositive.getD 7 0 = 1 := by
  obtain ⟨s1, h1, h2, h3, -, -, h6, -⟩ := c13_update_normalized
    (FloatInspectorStatisticsCreateFloat x86_64 (fun _ => 0) (fun _ => 0) (fun _ => 0)
      (fun _ => 0))
    { exponent := [0x7F], nExponentBits := 8, nExponentBytes := 1,
      nNonZeroExponentBits := 7, mantissa := [0, 0, 0], nMantissaBits := 23,
      nMantissaBytes := 3, nNonZeroMantissaBits := 0, sign := Sign.Positive,
      type := FloatType.Normalized } 8 23 (createFloat_isProfile _ _ _ _) rfl (by decide)
    (by decide)
  exact ⟨s1, h1, h2, h3, h6⟩

/-- C14: for a profile with widths `(E, M)` and a meta of type `Denormalized`
whose mantissa count is within `M`, the update returns and increases by 1 (as
`unsigned int`) `nEntries`, `nDenormalized`, the counter of the meta's sign and
the cell at index `nNonZeroMantissaBits` of the denormalized histogram of that
sign; the other counters, the other cells of that histogram, the other
denormalized histogram and both normalized histograms are unchanged. -/
theorem c14_update_denormalized (s : _FloatInspectorStatistics)
    (meta : FloatInspectorMetaInformation) (E M : Nat) (hp : IsProfile s E M)
    (hty : meta.type = FloatType.Denormalized) (hzm : meta.nNonZeroMantissaBits ≤ M) :
    ∃ s1, FloatInspectorStatisticsUpdateWithMetaInformation s meta = some s1 ∧
      s1.nEntries = (s.nEntries + 1) % 4294967296 ∧
      s1.nDenormalized = (s.nDenormalized + 1) % 4294967296 ∧
      signCounter s1 meta.sign = (signCounter s meta.sign + 1) % 4294967296 ∧
      meta.nNonZeroMantissaBits < (denormalizedHistogram s meta.sign).length ∧
      (denormalizedHistogram s1 meta.sign).getD meta.nNonZeroMantissaBits 0
        = ((denormalizedHistogram s meta.sign).getD meta.nNonZeroMantissaBits 0 + 1)
          % 4294967296 ∧
      (denormalizedHistogram s1 meta.sign).length
        = (denormalizedHistogram s meta.sign).length ∧
      (∀ j, j ≠ meta.nNonZeroMantissaBits →
        (denormalizedHistogram s1 meta.sign)[j]? = (denormalizedHistogram s meta.sign)[j]?) ∧
      signCounter s1 (otherSign meta.sign) = signCounter s (otherSign meta.sign) ∧
      s1.nNormalized = s.nNormalized ∧ s1.nNaN = s.nNaN ∧ s1.nInf = s.nInf ∧
      denormalizedHistogram s1 (otherSign meta.sign)
        = denormalizedHistogram s (otherSign meta.sign) ∧
      normalizedHistogram s1 Sign.Positive = normalizedHistogram s Sign.Positive ∧
      normalizedHistogram s1 Sign.Negative = normalizedHistogram s Sign.Negative ∧
      s1.type = s.type ∧ s1.nBits = s.nBits ∧ s1.nExponentBits = s.nExponentBits ∧
      s1.nMantissaBits = s.nMantissaBits := by
  obtain ⟨hE, hM, hnp, hdp, hnn, hdn, h32⟩ := hp
  cases hsg : meta.sign with
  | Positive =>
    obtain ⟨b, hb1, hb2, hb3, hb4⟩ := incrementCell_spec s.nNonZeroBitsDenormalizedPositive
      meta.nNonZeroMantissaBits (by rw [hdp]; omega)
    refine ⟨{ s with
        nEntries := uadd s.nEntries 1
        nDenormalized := uadd s.nDenormalized 1
        nPositive := uadd s.nPositive 1
        nNonZeroBitsDenormalizedPositive := b }, ?_, rfl, rfl, rfl, ?_, hb3, hb2, hb4, rfl, rfl,
      rfl, rfl, rfl, rfl, rfl, rfl, rfl, rfl, rfl⟩
    · unfold FloatInspectorStatisticsUpdateWithMetaInformation
      simp only [hty, hsg, if_true]
      rw [hb1, Option.some_bind]
    · show _ < s.nNonZeroBitsDenormalizedPositive.length
      rw [hdp]; omega
  | Negative =>
    obtain ⟨b, hb1, hb2, hb3, hb4⟩ := incrementCell_spec s.nNonZeroBitsDenormalizedNegative
      meta.nNonZeroMantissaBits (by rw [hdn]; omega)
    refine ⟨{ s with
        nEntries := uadd s.nEntries 1
        nDenormalized := uadd s.nDenormalized 1
        nNegative := uadd s.nNegative 1
        nNonZeroBitsDenormalizedNegative := b }, ?_, rfl, rfl, rfl, ?_, hb3, hb2, hb4, rfl, rfl,
      rfl, rfl, rfl, rfl, rfl, rfl, rfl, rfl, rfl⟩
    · unfold FloatInspectorStatisticsUpdateWithMetaInformation
      simp only [hty, hsg, if_false, reduceCtorEq]
      rw [hb1, Option.some_bind]
    · show _ < s.nNonZeroBitsDenormalizedNegative.length
      rw [hdn]; omega

/-- C14 at the double profile and the meta of the double `-0.0`
(`Denormalized`, `Negative`, counts 0 and 0). -/
theorem c14_witness :
    ∃ s1, FloatInspectorStatisticsUpdateWithMetaInformation
        (FloatInspectorStatisticsCreateDouble x86_64 (fun _ => 0) (fun _ => 0) (fun _ => 0)
          (fun _ => 0))
        { exponent := [0, 0], nExponentBits := 11, nExponentBytes := 2,
          nNonZeroExponentBits := 0, mantissa := [0, 0, 0, 0, 0, 0, 0], nMantissaBits := 52,
          nMantissaBytes := 7, nNonZeroMantissaBits := 0, sign := Sign.Negative,
          type := FloatType.Denormalized } = some s1 ∧
      s1.nEntries = 1 ∧ s1.nDenormalized = 1 ∧ s1.nNegative = 1 ∧
      s1.nNonZeroBitsDenormalizedNegative.getD 0 0 = 1 := by
  obtain ⟨s1, h1, h2, h3, h4, -, h6, -⟩ := c14_update_denormalized
    (FloatInspectorStatisticsCreateDouble x86_64 (fun _ => 0) (fun _ => 0) (fun _ => 0)
      (fun _ => 0))
    { exponent := [0, 0], nExponentBits := 11, nExponentBytes := 2,
      nNonZeroExponentBits := 0, mantissa := [0, 0, 0, 0, 0, 0, 0], nMantissaBits := 52,
      nMantissaBytes := 7, nNonZeroMantissaBits := 0, sign := Sign.Negative,
      type := FloatType.Denormalized } 11 52 (createDouble_isProfile _ _ _ _) rfl (by decide)
  exact ⟨s1, h1, h2, h3, h4, h6⟩

/-- C15: for every profile and every meta of type `NaN`, of either sign, the
update returns, increases `nEntries` and `nNaN` by 1 (as `unsigned int`) and
leaves `nPositive`, `nNegative`, `nNormalized`, `nDenormalized`, `nInf` and all
four histograms as they were. -/
theorem c15_update_nan (s : _FloatInspectorStatistics)
    (meta : FloatInspectorMetaInformation) (hty : meta.type = FloatType.NaN) :
    ∃ s1, FloatInspectorStatisticsUpdateWithMetaInformation s meta = some s1 ∧
      s1.nEntries = (s.nEntries + 1) % 4294967296 ∧
      s1.nNaN = (s.nNaN + 1) % 4294967296 ∧
      s1.nPositive = s.nPositive ∧ s1.nNegative = s.nNegative ∧
      s1.nNormalized = s.nNormalized ∧ s1.nDenormalized = s.nDenormalized ∧
      s1.nInf = s.nInf ∧
      s1.nNonZeroBitsNormalizedPositive = s.nNonZeroBitsNormalizedPositive ∧
      s1.nNonZeroBitsDenormalizedPositive = s.nNonZeroBitsDenormalizedPositive ∧
      s1.nNonZeroBitsNormalizedNegative = s.nNonZeroBitsNormalizedNegative ∧
      s1.nNonZeroBitsDenormalizedNegative = s.nNonZeroBitsDenormalizedNegative := by
  refine ⟨{ s with nEntries := uadd s.nEntries 1, nNaN := uadd s.nNaN 1 }, ?_, rfl, rfl, rfl,
    rfl, rfl, rfl, rfl, rfl, rfl, rfl, rfl⟩
  unfold FloatInspectorStatisticsUpdateWithMetaInformation
  simp only [hty]

/-- C15 at the float profile and the meta of the float NaN `0xFFC00000`, whose
sign is `Negative`. -/
theorem c15_witness :
    ∃ s1, FloatInspectorStatisticsUpdateWithMetaInformation
        (FloatInspectorStatisticsCreateFloat x86_64 (fun _ => 0) (fun _ => 0) (fun _ => 0)
          (fun _ => 0))
        { exponent := [0xFF], nExponentBits := 8, nExponentBytes := 1,
          nNonZeroExponentBits := 8, mantissa := [0, 0, 0x40], nMantissaBits := 23,
          nMantissaBytes := 3, nNonZeroMantissaBits := 1, sign := Sign.Negative,
          type := FloatType.NaN } = some s1 ∧
      s1.nEntries = 1 ∧ s1.nNaN = 1 ∧ s1.nNegative = 0 := by
  obtain ⟨s1, h1, h2, h3, -, h5, -⟩ := c15_update_nan
    (FloatInspectorStatisticsCreateFloat x86_64 (fun _ => 0) (fun _ => 0) (fun _ => 0)
      (fun _ => 0))
    { exponent := [0xFF], nExponentBits := 8, nExponentBytes := 1,
      nNonZeroExponentBits := 8, mantissa := [0, 0, 0x40], nMantissaBits := 23,
      nMantissaBytes := 3, nNonZeroMantissaBits := 1, sign := Sign.Negative,
      type := FloatType.NaN } rfl
  exact ⟨s1, h1, h2, h3, h5⟩

/-- C16: for every profile and every meta of type `Infinity`, the update
returns, increases `nEntries`, `nInf` and the counter of the meta's sign by 1
(as `unsigned int`) and leaves the other sign counter, `nNormalized`,
`nDenormalized`, `nNaN` and all four histograms as they were. -/
theorem c16_update_infinity (s : _FloatInspectorStatistics)
    (meta : FloatInspectorMetaInformation) (hty : meta.type = FloatType.Infinity) :
    ∃ s1, FloatInspectorStatisticsUpdateWithMetaInformation s meta = some s1 ∧
      s1.nEntries = (s.nEntries + 1) % 4294967296 ∧
      s1.nInf = (s.nInf + 1) % 4294967296 ∧
      signCounter s1 meta.sign = (signCounter s meta.sign + 1) % 4294967296 ∧
      signCounter s1 (otherSign meta.sign) = signCounter s (otherSign meta.sign) ∧
      s1.nNormalized = s.nNormalized ∧ s1.nDenormalized = s.nDenormalized ∧
      s1.nNaN = s.nNaN ∧
      s1.nNonZeroBitsNormalizedPositive = s.nNonZeroBitsNormalizedPositive ∧
      s1.nNonZeroBitsDenormalizedPositive = s.nNonZeroBitsDenormalizedPositive ∧
      s1.nNonZeroBitsNormalizedNegative = s.nNonZeroBitsNormalizedNegative ∧
      s1.nNonZeroBitsDenormalizedNegative = s.nNonZeroBitsDenormalizedNegative := by
  cases hsg : meta.sign with
  | Positive =>
    refine ⟨{ s with
      nEntries := uadd s.nEntries 1, nInf := uadd s.nInf 1, nPositive := uadd s.nPositive 1 },
      ?_, rfl, rfl, rfl, rfl, rfl, rfl, rfl, rfl, rfl, rfl, rfl⟩
    unfold FloatInspectorStatisticsUpdateWithMetaInformation
    simp only [hty, hsg, if_true]
  | Negative =>
    refine ⟨{ s with
      nEntries := uadd s.nEntries 1, nInf := uadd s.nInf 1, nNegative := uadd s.nNegative 1 },
      ?_, rfl, rfl, rfl, rfl, rfl, rfl, rfl, rfl, rfl, rfl, rfl⟩
    unfold FloatInspectorStatisticsUpdateWithMetaInformation
    simp only [hty, hsg, if_false, reduceCtorEq]

/-- C16 at the float profile and the meta of the float `-Infinity`. -/
theorem c16_witness :
    ∃ s1, FloatInspectorStatisticsUpdateWithMetaInformation
        (FloatInspectorStatisticsCreateFloat x86_64 (fun _ => 0) (fun _ => 0) (fun _ => 0)
          (fun _ => 0))
        { exponent := [0xFF], nExponentBits := 8, nExponentBytes := 1,
          nNonZeroExponentBits := 8, mantissa := [0, 0, 0], nMantissaBits := 23,
          nMantissaBytes := 3, nNonZeroMantissaBits := 0, sign := Sign.Negative,
          type := FloatType.Infinity } = some s1 ∧
      s1.nEntries = 1 ∧ s1.nInf = 1 ∧ s1.nNegative = 1 := by
  obtain ⟨s1, h1, h2, h3, h4, -⟩ := c16_update_infinity
    (FloatInspectorStatisticsCreateFloat x86_64 (fun _ => 0) (fun _ => 0) (fun _ => 0)
      (fun _ => 0))
    { exponent := [0xFF], nExponentBits := 8, nExponentBytes := 1,
      nNonZeroExponentBits := 8, mantissa := [0, 0, 0], nMantissaBits := 23,
      nMantissaBytes := 3, nNonZeroMantissaBits := 0, sign := Sign.Negative,
      type := FloatType.Infinity } rfl
  exact ⟨s1, h1, h2, h3, h4⟩

/-! ## Sequences of updates on a profile whose cells start at zero -/

theorem sum_set_add (a : List Nat) : ∀ (i v : Nat) (hi : i < a.length),
    (a.set i v).sum + a[i] = a.sum + v := by
  induction a with
  | nil => intro i v hi; simp at hi
  | cons x rest ih =>
    intro i v hi
    cases i with
    | zero => simp; omega
    | succ k =>
      have := ih k v (by simpa using hi)
      simp only [List.set_cons_succ, List.sum_cons, List.getElem_cons_succ]
      omega

theorem getElem_le_sum (a : List Nat) : ∀ (i : Nat) (hi : i < a.length), a[i] ≤ a.sum := by
  induction a with
  | nil => intro i hi; simp at hi
  | cons x rest ih =>
    intro i hi
    cases i with
    | zero => simp
    | succ k =>
      have := ih k (by simpa using hi)
      simp only [List.sum_cons, List.getElem_cons_succ]
      omega

theorem incrementCell_sum (a : List Nat) (i : Nat) (hi : i < a.length)
    (h32 : a.sum + 1 < 4294967296) :
    ∃ b, incrementCell a i = some b ∧ b.length = a.length ∧ b.sum = a.sum + 1 := by
  have hle := getElem_le_sum a i hi
  refine ⟨a.set i (a[i] + 1), ?_, List.length_set _ _ _, ?_⟩
  · unfold incrementCell
    rw [List.getElem?_eq_getElem hi, Option.some_bind, uadd_eq _ _ (by omega)]
  · have := sum_set_add a i (a[i] + 1) hi
    omega

theorem sum_mallocCells_zero (n : Nat) : (mallocCells (fun _ => 0) n).sum = 0 := by
  unfold mallocCells
  apply List.sum_eq_zero
  intro x hx
  simp at hx
  exact hx.2

/-- One update keeps the bookkeeping and adds one entry, as long as the counters
do not reach `UINT_MAX` and the meta's counts are within the profile's widths. -/
theorem update_balanced (c : Nat) (s : _FloatInspectorStatistics)
    (meta : FloatInspectorMetaInformation) (E M : Nat) (hp : IsProfile s E M)
    (hb : Balanced c s) (hw : WithinWidths meta E M)
    (h32 : s.nEntries + c + 1 < 4294967296) :
    ∃ s1, FloatInspectorStatisticsUpdateWithMetaInformation s meta = some s1 ∧
      IsProfile s1 E M ∧ Balanced c s1 ∧ s1.nEntries = s.nEntries + 1 := by
  obtain ⟨rfl, rfl, hnp, hdp, hnn, hdn, hsz⟩ := hp
  obtain ⟨b1, b2, b3, b4⟩ := hb
  obtain ⟨hze, hzm⟩ := hw
  have hidx := flat_index_eq _ _ _ _ hze hzm hsz
  have hlt := flat_index_lt _ _ _ _ hze hzm
  have e1 : uadd s.nEntries 1 = s.nEntries + 1 := uadd_eq _ _ (by omega)
  have e2 : uadd s.nNormalized 1 = s.nNormalized + 1 := uadd_eq _ _ (by omega)
  have e3 : uadd s.nDenormalized 1 = s.nDenormalized + 1 := uadd_eq _ _ (by omega)
  have e4 : uadd s.nNaN 1 = s.nNaN + 1 := uadd_eq _ _ (by omega)
  have e5 : uadd s.nInf 1 = s.nInf + 1 := uadd_eq _ _ (by omega)
  have e6 : uadd s.nPositive 1 = s.nPositive + 1 := uadd_eq _ _ (by omega)
  have e7 : uadd s.nNegative 1 = s.nNegative + 1 := uadd_eq _ _ (by omega)
  unfold FloatInspectorStatisticsUpdateWithMetaInformation
  cases hty : meta.type with
  | Normalized =>
    cases hsg : meta.sign with
    | Positive =>
      obtain ⟨b, hb1, hb2, hb3⟩ := incrementCell_sum s.nNonZeroBitsNormalizedPositive
        (meta.nNonZeroMantissaBits * (s.nExponentBits + 1) + meta.nNonZeroExponentBits)
        (by rw [hnp]; exact hlt) (by omega)
      simp only [hidx, if_true, hb1, Option.some_bind, e1, e2, e6]
      refine ⟨_, rfl, ⟨rfl, rfl, ?_, ?_, ?_, ?_, hsz⟩, ⟨?_, ?_, ?_, ?_⟩, rfl⟩ <;>
        dsimp only <;> omega
    | Negative =>
      obtain ⟨b, hb1, hb2, hb3⟩ := incrementCell_sum s.nNonZeroBitsNormalizedNegative
        (meta.nNonZeroMantissaBits * (s.nExponentBits + 1) + meta.nNonZeroExponentBits)
        (by rw [hnn]; exact hlt) (by omega)
      simp only [hidx, if_false, reduceCtorEq, hb1, Option.some_bind, e1, e2, e7]
      refine ⟨_, rfl, ⟨rfl, rfl, ?_, ?_, ?_, ?_, hsz⟩, ⟨?_, ?_, ?_, ?_⟩, rfl⟩ <;>
        dsimp only <;> omega
  | Denormalized =>
    cases hsg : meta.sign with
    | Positive =>
      obtain ⟨b, hb1, hb2, hb3⟩ := incrementCell_sum s.nNonZeroBitsDenormalizedPositive
        meta.nNonZeroMantissaBits (by rw [hdp]; omega) (by omega)
      simp only [if_true, hb1, Option.some_bind, e1, e3, e6]
      refine ⟨_, rfl, ⟨rfl, rfl, ?_, ?_, ?_, ?_, hsz⟩, ⟨?_, ?_, ?_, ?_⟩, rfl⟩ <;>
        dsimp only <;> omega
    | Negative =>
      obtain ⟨b, hb1, hb2, hb3⟩ := incrementCell_sum s.nNonZeroBitsDenormalizedNegative
        meta.nNonZeroMantissaBits (by rw [hdn]; omega) (by omega)
      simp only [if_false, reduceCtorEq, hb1, Option.some_bind, e1, e3, e7]
      refine ⟨_, rfl, ⟨rfl, rfl, ?_, ?_, ?_, ?_, hsz⟩, ⟨?_, ?_, ?_, ?_⟩, rfl⟩ <;>
        dsimp only <;> omega
  | NaN =>
    simp only [e1, e4]
    refine ⟨_, rfl, ⟨rfl, rfl, ?_, ?_, ?_, ?_, hsz⟩, ⟨?_, ?_, ?_, ?_⟩, rfl⟩ <;>
      dsimp only <;> omega
  | Infinity =>
    cases hsg : meta.sign with
    | Positive =>
      simp only [if_true, e1, e5, e6]
      refine ⟨_, rfl, ⟨rfl, rfl, ?_, ?_, ?_, ?_, hsz⟩, ⟨?_, ?_, ?_, ?_⟩, rfl⟩ <;>
        dsimp only <;> omega
    | Negative =>
      simp only [if_false, reduceCtorEq, e1, e5, e7]
      refine ⟨_, rfl, ⟨rfl, rfl, ?_, ?_, ?_, ?_, hsz⟩, ⟨?_, ?_, ?_, ?_⟩, rfl⟩ <;>
        dsimp only <;> omega

/-- A sequence of updates keeps the bookkeeping and adds one entry per call. -/
theorem updateSequence_balanced (c E M : Nat) (metas : List FloatInspectorMetaInformation) :
    ∀ (s : _FloatInspectorStatistics), IsProfile s E M → Balanced c s →
      (∀ meta ∈ metas, WithinWidths meta E M) →
      s.nEntries + c + metas.length < 4294967296 →
      ∃ s1, updateSequence s metas = some s1 ∧ IsProfile s1 E M ∧ Balanced c s1 ∧
        s1.nEntries = s.nEntries + metas.length := by
  induction metas with
  | nil =>
    intro s hp hb _ _
    exact ⟨s, rfl, hp, hb, rfl⟩
  | cons meta rest ih =>
    intro s hp hb hw h32
    rw [List.length_cons] at h32
    obtain ⟨s1, h1, h2, h3, h4⟩ := update_balanced c s meta E M hp hb
      (hw meta (List.mem_cons_self _ _)) (by omega)
    obtain ⟨s2, g1, g2, g3, g4⟩ := ih s1 h2 h3
      (fun m hm => hw m (List.mem_cons_of_mem _ hm)) (by omega)
    refine ⟨s2, ?_, g2, g3, ?_⟩
    · unfold updateSequence
      rw [h1, Option.some_bind, g1]
    · rw [g4, h4, List.length_cons]; omega

theorem createFloat_zeroed_balanced :
    Balanced 1 (FloatInspectorStatisticsCreateFloat x86_64 (fun _ => 0) (fun _ => 0)
      (fun _ => 0) (fun _ => 0)) := by
  unfold Balanced FloatInspectorStatisticsCreateFloat
  simp only [sum_mallocCells_zero]
  decide

theorem createDouble_zeroed_balanced :
    Balanced 1 (FloatInspectorStatisticsCreateDouble x86_64 (fun _ => 0) (fun _ => 0)
      (fun _ => 0) (fun _ => 0)) := by
  unfold Balanced FloatInspectorStatisticsCreateDouble
  simp only [sum_mallocCells_zero]
  decide

theorem createLongDouble_zeroed_balanced :
    Balanced 0 (FloatInspectorStatisticsCreateLongDouble x86_64 (fun _ => 0) (fun _ => 0)
      (fun _ => 0) (fun _ => 0)) := by
  unfold Balanced FloatInspectorStatisticsCreateLongDouble
  simp only [sum_mallocCells_zero]
  decide

/-- What holds of the float profile when the four allocated blocks happen to be
clear: after `N` updates with metas within the widths the cells of each pair of
histograms sum to the category counter, all cells plus `nNaN` plus `nInf` make
`N`, `nEntries` is `N`, and `nPositive + nNegative + nNaN` is `N + 1`. -/
theorem createFloat_zeroed_sequence (metas : List FloatInspectorMetaInformation)
    (hw : ∀ meta ∈ metas, WithinWidths meta 8 23) (hN : metas.length + 1 < 4294967296) :
    ∃ s, updateSequence (FloatInspectorStatisticsCreateFloat x86_64 (fun _ => 0) (fun _ => 0)
        (fun _ => 0) (fun _ => 0)) metas = some s ∧
      s.nNonZeroBitsNormalizedPositive.sum + s.nNonZeroBitsNormalizedNegative.sum
        = s.nNormalized ∧
      s.nNonZeroBitsDenormalizedPositive.sum + s.nNonZeroBitsDenormalizedNegative.sum
        = s.nDenormalized ∧
      s.nNonZeroBitsNormalizedPositive.sum + s.nNonZeroBitsNormalizedNegative.sum
        + s.nNonZeroBitsDenormalizedPositive.sum + s.nNonZeroBitsDenormalizedNegative.sum
        + s.nNaN + s.nInf = metas.length ∧
      s.nEntries = metas.length ∧
      s.nPositive + s.nNegative + s.nNaN = metas.length + 1 := by
  obtain ⟨s, h1, -, ⟨b1, b2, b3, b4⟩, h4⟩ := updateSequence_balanced 1 8 23 metas _
    (createFloat_isProfile _ _ _ _) createFloat_zeroed_balanced hw
    (by show 0 + 1 + metas.length < 4294967296; omega)
  have h5 : s.nEntries = metas.length := by
    rw [h4]; show 0 + metas.length = metas.length; omega
  exact ⟨s, h1, b1, b2, by omega, h5, by omega⟩

/-- The same for the long double profile, which starts with `nPositive = 0`:
with clear blocks `nPositive + nNegative + nNaN` is `N` after `N` updates. -/
theorem createLongDouble_zeroed_sequence (metas : List FloatInspectorMetaInformation)
    (hw : ∀ meta ∈ metas, WithinWidths meta 64 63) (hN : metas.length < 4294967296) :
    ∃ s, updateSequence (FloatInspectorStatisticsCreateLongDouble x86_64 (fun _ => 0)
        (fun _ => 0) (fun _ => 0) (fun _ => 0)) metas = some s ∧
      s.nNonZeroBitsNormalizedPositive.sum + s.nNonZeroBitsNormalizedNegative.sum
        = s.nNormalized ∧
      s.nNonZeroBitsDenormalizedPositive.sum + s.nNonZeroBitsDenormalizedNegative.sum
        = s.nDenormalized ∧
      s.nEntries = metas.length ∧
      s.nPositive + s.nNegative + s.nNaN = metas.length := by
  obtain ⟨s, h1, -, ⟨b1, b2, b3, b4⟩, h4⟩ := updateSequence_balanced 0 64 63 metas _
    (createLongDouble_isProfile _ _ _ _) createLongDouble_zeroed_balanced hw
    (by show 0 + 0 + metas.length < 4294967296; omega)
  have h5 : s.nEntries = metas.length := by
    rw [h4]; show 0 + metas.length = metas.length; omega
  exact ⟨s, h1, b1, b2, h5, by omega⟩

/-! ## The claims about freshly created profiles -/

set_option maxRecDepth 100000 in
/-- C17, at the failing input: a float profile whose first allocated block
holds the value 7 in cell 0 (the creators do not clear what `malloc` returns).
Before any update the normalized cells sum to 7 while `nNormalized` is 0; after
one update with the meta of `1.0f` (`N = 1`) they sum to 8 while `nNormalized`
is 1, and all cells plus `nNaN` plus `nInf` make 8, not 1. -/
theorem c17_uninitialised_histogram_breaks_sums :
    (updateSequence
      (FloatInspectorStatisticsCreateFloat x86_64 (fun i => if i = 0 then 7 else 0)
        (fun _ => 0) (fun _ => 0) (fun _ => 0)) []).map
      (fun s => (s.nNonZeroBitsNormalizedPositive.sum + s.nNonZeroBitsNormalizedNegative.sum,
        s.nNormalized)) = some (7, 0) ∧
    (updateSequence
      (FloatInspectorStatisticsCreateFloat x86_64 (fun i => if i = 0 then 7 else 0)
        (fun _ => 0) (fun _ => 0) (fun _ => 0))
      [{ exponent := [0x7F], nExponentBits := 8, nExponentBytes := 1,
         nNonZeroExponentBits := 7, mantissa := [0, 0, 0], nMantissaBits := 23,
         nMantissaBytes := 3, nNonZeroMantissaBits := 0, sign := Sign.Positive,
         type := FloatType.Normalized }]).map
      (fun s => (s.nNonZeroBitsNormalizedPositive.sum + s.nNonZeroBitsNormalizedNegative.sum,
        s.nNormalized,
        s.nNonZeroBitsNormalizedPositive.sum + s.nNonZeroBitsNormalizedNegative.sum
          + s.nNonZeroBitsDenormalizedPositive.sum + s.nNonZeroBitsDenormalizedNegative.sum
          + s.nNaN + s.nInf)) = some (8, 1, 8) := by
  decide

set_option maxRecDepth 100000 in
/-- C18, at the failing input: the float and the double profile start with
`nPositive = 1` (the long double profile starts with 0).  With no update
(`N = 0`) the sum `nPositive + nNegative + nNaN` is 1; after one update with
the meta of `1.0f` (`N = 1`) it is 2, while `nEntries` is 1. -/
theorem c18_float_profile_starts_with_one_positive :
    (updateSequence
      (FloatInspectorStatisticsCreateFloat x86_64 (fun _ => 0) (fun _ => 0) (fun _ => 0)
        (fun _ => 0)) []).map
      (fun s => (s.nPositive + s.nNegative + s.nNaN, s.nEntries)) = some (1, 0) ∧
    (updateSequence
      (FloatInspectorStatisticsCreateFloat x86_64 (fun _ => 0) (fun _ => 0) (fun _ => 0)
        (fun _ => 0))
      [{ exponent := [0x7F], nExponentBits := 8, nExponentBytes := 1,
         nNonZeroExponentBits := 7, mantissa := [0, 0, 0], nMantissaBits := 23,
         nMantissaBytes := 3, nNonZeroMantissaBits := 0, sign := Sign.Positive,
         type := FloatType.Normalized }]).map
      (fun s => (s.nPositive + s.nNegative + s.nNaN, s.nEntries)) = some (2, 1) ∧
    (∀ m1 m2 m3 m4, (FloatInspectorStatisticsCreateFloat x86_64 m1 m2 m3 m4).nPositive = 1) ∧
    (∀ m1 m2 m3 m4, (FloatInspectorStatisticsCreateDouble x86_64 m1 m2 m3 m4).nPositive = 1) ∧
    (∀ m1 m2 m3 m4,
      (FloatInspectorStatisticsCreateLongDouble x86_64 m1 m2 m3 m4).nPositive = 0) := by
  refine ⟨by decide, by decide, fun _ _ _ _ => rfl, fun _ _ _ _ => rfl, fun _ _ _ _ => rfl⟩

/-! ## The claims about error handling -/

/-- C19, counterexample: with `nExp = 0`, `nMant = 0`, both `malloc(0)` calls
returning a non-null pointer and the 4-byte buffer `00 00 00 00`, the function
does not return the error constant: no width check stops it, and it reads
`bytes[overallBytes - 1]` with `overallBytes = 0`, outside the buffer. -/
theorem c19_zero_widths_not_checked :
    FloatInspectorMetaInformationCreateGenericMalloc true true [0, 0, 0, 0] 0 0 = none ∧
    FloatInspectorMetaInformationCreateGenericMalloc true true [0, 0, 0, 0] 0 0
      ≠ some kFloatInspectorMetaInformationError := by
  decide

/-- C19, amended: with `nExp = 0` and `nMant = 0`, whenever one of the two
`malloc(0)` calls returns `NULL` the function returns
`kFloatInspectorMetaInformationError`, for every buffer. -/
theorem c19_zero_widths_error_when_malloc_null (bytes : List Nat)
    (expAllocated mantAllocated : Bool)
    (h : expAllocated = false ∨ mantAllocated = false) :
    FloatInspectorMetaInformationCreateGenericMalloc expAllocated mantAllocated bytes 0 0
      = some kFloatInspectorMetaInformationError := by
  cases expAllocated <;> cases mantAllocated <;> first | rfl | (exfalso; simp at h)

/-- C19 amended, with the first `malloc(0)` returning `NULL`; the constant has
null arrays and all widths and counts 0. -/
theorem c19_witness :
    FloatInspectorMetaInformationCreateGenericMalloc false true [0, 0, 0, 0] 0 0
      = some { exponent := [], nExponentBits := 0, nExponentBytes := 0,
               nNonZeroExponentBits := 0, mantissa := [], nMantissaBits := 0,
               nMantissaBytes := 0, nNonZeroMantissaBits := 0, sign := Sign.Positive,
               type := FloatType.NaN } :=
  c19_zero_widths_error_when_malloc_null [0, 0, 0, 0] false true (Or.inl rfl)

set_option maxRecDepth 100000 in
/-- C20, counterexample: the float profile (widths 8 and 23) updated with the
meta of the double `1.0` (widths 11 and 52, `Normalized`, counts 10 and 0).
The update returns a state, no error is raised, `nEntries` and `nNormalized`
go from 0 to 1 and the cell at flat index `0 * 9 + 10` of the positive
normalized histogram goes from 0 to 1. -/
theorem c20_mismatched_meta_is_counted :
    (FloatInspectorMetaInformationCreateGeneric [0, 0, 0, 0, 0, 0, 0xF0, 0x3F] 11 52).map
      (fun r => (r.nExponentBits, r.nMantissaBits, r.nNonZeroExponentBits,
        r.nNonZeroMantissaBits, r.type)) = some (11, 52, 10, 0, FloatType.Normalized) ∧
    ((FloatInspectorMetaInformationCreateGeneric [0, 0, 0, 0, 0, 0, 0xF0, 0x3F] 11 52).bind
      (fun r => FloatInspectorStatisticsUpdateWithMetaInformation
        (FloatInspectorStatisticsCreateFloat x86_64 (fun _ => 0) (fun _ => 0) (fun _ => 0)
          (fun _ => 0)) r)).map
      (fun s => (s.nExponentBits, s.nMantissaBits, s.nEntries, s.nNormalized,
        s.nNonZeroBitsNormalizedPositive.getD 10 0)) = some (8, 23, 1, 1, 1) := by
  decide

/-- C20, amended: the update never reads the meta's `nExponentBits` and
`nMantissaBits`.  A meta whose widths differ from the profile's is processed
exactly as the same meta carrying the profile's widths: no error is surfaced
and the counters and cells are updated from its type, sign and counts. -/
theorem c20_update_ignores_meta_widths (s : _FloatInspectorStatistics)
    (meta : FloatInspectorMetaInformation) :
    FloatInspectorStatisticsUpdateWithMetaInformation s meta
      = FloatInspectorStatisticsUpdateWithMetaInformation s
          { meta with nExponentBits := s.nExponentBits, nMantissaBits := s.nMantissaBits } := by
  rfl

/-! ## The claims about the behaviour of the extractor and the statistics together -/

/-- C21: for `M` not a multiple of 8 and an all-ones exponent field, the call
returns `NaN` when the low `M` bits of the buffer are not all 0 and `Infinity`
when they are. -/
theorem c21_all_ones_exponent_nan_or_infinity (bytes : List Nat) (E M : Nat)
    (h : ValidCall bytes E M) (hM8 : M % 8 ≠ 0)
    (hexp : expField (leValue bytes) E M = 2 ^ E - 1) :
    ∃ r, FloatInspectorMetaInformationCreateGeneric bytes E M = some r ∧
      (mantField (leValue bytes) M ≠ 0 → r.type = FloatType.NaN) ∧
      (mantField (leValue bytes) M = 0 → r.type = FloatType.Infinity) := by
  obtain ⟨e, m, ze, zm, -, -, -, -, f3, g1, g2, -, -, hr⟩ := createGeneric_valid bytes E M h
  have hze : ze = E := f3 hexp
  have hE : E ≠ 0 := by have := h.2.1; omega
  have hst := mantStored_eq_mantField (leValue bytes) M hM8
  refine ⟨_, hr, ?_, ?_⟩
  · intro hne
    have hzm : zm ≠ 0 := by
      have := (g2 (by rw [hst]; exact hne)).1
      omega
    show classify ze E zm _ = _
    unfold classify
    rw [hze, if_neg hE, if_pos rfl, if_pos hexp, if_neg hzm]
  · intro h0
    have hzm : zm = 0 := g1 (by rw [hst]; exact h0)
    show classify ze E zm _ = _
    unfold classify
    rw [hze, hzm, if_neg hE, if_pos rfl, if_pos hexp, if_pos rfl]

/-- C21 at the float NaN `0x7F800001` (only the lowest mantissa bit set) and at
the double `+Infinity` (`0x7FF0000000000000`). -/
theorem c21_witness :
    (∃ r, FloatInspectorMetaInformationCreateGeneric [0x01, 0x00, 0x80, 0x7F] 8 23 = some r ∧
      r.type = FloatType.NaN) ∧
    (∃ r, FloatInspectorMetaInformationCreateGeneric [0, 0, 0, 0, 0, 0, 0xF0, 0x7F] 11 52
        = some r ∧ r.type = FloatType.Infinity) := by
  obtain ⟨r1, h1, h2, -⟩ := c21_all_ones_exponent_nan_or_infinity [0x01, 0x00, 0x80, 0x7F] 8 23
    (by decide) (by decide) (by decide)
  obtain ⟨r2, g1, -, g3⟩ := c21_all_ones_exponent_nan_or_infinity
    [0, 0, 0, 0, 0, 0, 0xF0, 0x7F] 11 52 (by decide) (by decide) (by decide)
  exact ⟨⟨r1, h1, h2 (by decide)⟩, ⟨r2, g1, g3 (by decide)⟩⟩

/-- C23, at the failing input: the long double kind with the x87 values
(`LDBL_MANT_DIG = 64`, `sizeof(long double) = 16`, exponent range
`16384 - (-16381) = 32765`, whose base-2 logarithm rounds up to 15).  The float
and the double extractor pass the widths of their profiles, `(8, 23)` and
`(11, 52)`.  The long double extractor passes `(15, 64)`, as the meta of `1.0L`
shows, while the long double profile has the widths `(64, 63)`. -/
theorem c23_long_double_profile_widths_differ :
    (∀ f, FloatInspectorMetaInformationCreateWithFloat x86_64 f
      = FloatInspectorMetaInformationCreateGeneric f 8 23) ∧
    (∀ m1 m2 m3 m4,
      ((FloatInspectorStatisticsCreateFloat x86_64 m1 m2 m3 m4).nExponentBits,
       (FloatInspectorStatisticsCreateFloat x86_64 m1 m2 m3 m4).nMantissaBits) = (8, 23)) ∧
    (∀ f, FloatInspectorMetaInformationCreateWithDouble x86_64 f
      = FloatInspectorMetaInformationCreateGeneric f 11 52) ∧
    (∀ m1 m2 m3 m4,
      ((FloatInspectorStatisticsCreateDouble x86_64 m1 m2 m3 m4).nExponentBits,
       (FloatInspectorStatisticsCreateDouble x86_64 m1 m2 m3 m4).nMantissaBits) = (11, 52)) ∧
    (2 ^ 14 < 16384 - (-16381 : Int) ∧ 16384 - (-16381 : Int) ≤ 2 ^ 15) ∧
    (∀ f, FloatInspectorMetaInformationCreateWithLongDouble x86_64 15 f
      = FloatInspectorMetaInformationCreateGeneric f 15 64) ∧
    (FloatInspectorMetaInformationCreateWithLongDouble x86_64 15
      [0, 0, 0, 0, 0, 0, 0, 0x80, 0xFF, 0x3F, 0, 0, 0, 0, 0, 0]).map
        (fun r => (r.nExponentBits, r.nMantissaBits)) = some (15, 64) ∧
    (∀ m1 m2 m3 m4,
      ((FloatInspectorStatisticsCreateLongDouble x86_64 m1 m2 m3 m4).nExponentBits,
       (FloatInspectorStatisticsCreateLongDouble x86_64 m1 m2 m3 m4).nMantissaBits)
        = (64, 63)) := by
  refine ⟨fun _ => rfl, fun _ _ _ _ => rfl, fun _ => rfl, fun _ _ _ _ => rfl, by decide,
    fun _ => rfl, by decide, fun _ _ _ _ => rfl⟩

/-- An update with a meta within the widths of the profile returns: every
histogram access is inside its array.  The result keeps the shape of the
profile and has each counter either incremented (as `unsigned int`) or
unchanged, according to the type of the meta. -/
theorem update_some (s : _FloatInspectorStatistics) (meta : FloatInspectorMetaInformation)
    (E M : Nat) (hp : IsProfile s E M) (hw : WithinWidths meta E M) :
    ∃ s1, FloatInspectorStatisticsUpdateWithMetaInformation s meta = some s1 ∧
      IsProfile s1 E M ∧
      s1.nEntries = uadd s.nEntries 1 ∧
      s1.nNormalized
        = (if meta.type = FloatType.Normalized then uadd s.nNormalized 1 else s.nNormalized) ∧
      s1.nDenormalized
        = (if meta.type = FloatType.Denormalized then uadd s.nDenormalized 1
           else s.nDenormalized) ∧
      s1.nNaN = (if meta.type = FloatType.NaN then uadd s.nNaN 1 else s.nNaN) ∧
      s1.nInf = (if meta.type = FloatType.Infinity then uadd s.nInf 1 else s.nInf) := by
  obtain ⟨rfl, rfl, hnp, hdp, hnn, hdn, hsz⟩ := hp
  obtain ⟨hze, hzm⟩ := hw
  have hidx := flat_index_eq _ _ _ _ hze hzm hsz
  have hlt := flat_index_lt _ _ _ _ hze hzm
  unfold FloatInspectorStatisticsUpdateWithMetaInformation
  cases hty : meta.type with
  | Normalized =>
    cases hsg : meta.sign with
    | Positive =>
      obtain ⟨b, hb1, hb2, -⟩ := incrementCell_spec s.nNonZeroBitsNormalizedPositive
        (meta.nNonZeroMantissaBits * (s.nExponentBits + 1) + meta.nNonZeroExponentBits)
        (by rw [hnp]; exact hlt)
      simp only [hidx, if_true, hb1, Option.some_bind]
      exact ⟨_, rfl, ⟨rfl, rfl, by dsimp only; omega, hdp, hnn, hdn, hsz⟩, rfl, rfl, rfl, rfl,
        rfl⟩
    | Negative =>
      obtain ⟨b, hb1, hb2, -⟩ := incrementCell_spec s.nNonZeroBitsNormalizedNegative
        (meta.nNonZeroMantissaBits * (s.nExponentBits + 1) + meta.nNonZeroExponentBits)
        (by rw [hnn]; exact hlt)
      simp only [hidx, if_false, reduceCtorEq, hb1, Option.some_bind]
      exact ⟨_, rfl, ⟨rfl, rfl, hnp, hdp, by dsimp only; omega, hdn, hsz⟩, rfl, rfl, rfl, rfl,
        rfl⟩
  | Denormalized =>
    cases hsg : meta.sign with
    | Positive =>
      obtain ⟨b, hb1, hb2, -⟩ := incrementCell_spec s.nNonZeroBitsDenormalizedPositive
        meta.nNonZeroMantissaBits (by rw [hdp]; omega)
      simp only [if_true, hb1, Option.some_bind]
      exact ⟨_, rfl, ⟨rfl, rfl, hnp, by dsimp only; omega, hnn, hdn, hsz⟩, rfl, rfl, rfl, rfl,
        rfl⟩
    | Negative =>
      obtain ⟨b, hb1, hb2, -⟩ := incrementCell_spec s.nNonZeroBitsDenormalizedNegative
        meta.nNonZeroMantissaBits (by rw [hdn]; omega)
      simp only [if_false, reduceCtorEq, hb1, Option.some_bind]
      exact ⟨_, rfl, ⟨rfl, rfl, hnp, hdp, hnn, by dsimp only; omega, hsz⟩, rfl, rfl, rfl, rfl,
        rfl⟩
  | NaN =>
    exact ⟨_, rfl, ⟨rfl, rfl, hnp, hdp, hnn, hdn, hsz⟩, rfl, rfl, rfl, rfl, rfl⟩
  | Infinity =>
    cases hsg : meta.sign with
    | Positive =>
      simp only [if_true]
      exact ⟨_, rfl, ⟨rfl, rfl, hnp, hdp, hnn, hdn, hsz⟩, rfl, rfl, rfl, rfl, rfl⟩
    | Negative =>
      simp only [if_false, reduceCtorEq]
      exact ⟨_, rfl, ⟨rfl, rfl, hnp, hdp, hnn, hdn, hsz⟩, rfl, rfl, rfl, rfl, rfl⟩

theorem flat_index_injective (E ze1 zm1 ze2 zm2 : Nat) (h1 : ze1 ≤ E) (h2 : ze2 ≤ E)
    (h : zm1 * (E + 1) + ze1 = zm2 * (E + 1) + ze2) : zm1 = zm2 ∧ ze1 = ze2 := by
  have hd1 : (zm1 * (E + 1) + ze1) / (E + 1) = zm1 := by
    rw [Nat.add_comm, Nat.add_mul_div_right _ _ (by omega), Nat.div_eq_of_lt (by omega),
      Nat.zero_add]
  have hd2 : (zm2 * (E + 1) + ze2) / (E + 1) = zm2 := by
    rw [Nat.add_comm, Nat.add_mul_div_right _ _ (by omega), Nat.div_eq_of_lt (by omega),
      Nat.zero_add]
  have hz : zm1 = zm2 := by rw [← hd1, ← hd2, h]
  subst hz
  exact ⟨rfl, by omega⟩

/-- C22: the meta the extractor returns for a valid call makes the update of a
profile with the same widths index inside the histograms.  The flat index
`nNonZeroMantissaBits * (E + 1) + nNonZeroExponentBits`, which is the index the
update computes, is below `(M + 1) * (E + 1)` and below the length of both
normalized histograms; `nNonZeroMantissaBits` is below `M + 1` and below the
length of both denormalized histograms; the update returns; and a meta of
another valid call with a different pair of counts has a different flat
index. -/
theorem c22_update_indexes_inside_histograms (bytes : List Nat) (E M : Nat)
    (s : _FloatInspectorStatistics) (h : ValidCall bytes E M) (hp : IsProfile s E M) :
    ∃ r, FloatInspectorMetaInformationCreateGeneric bytes E M = some r ∧
      r.nNonZeroMantissaBits * (E + 1) + r.nNonZeroExponentBits < (M + 1) * (E + 1) ∧
      r.nNonZeroMantissaBits < M + 1 ∧
      uadd (umul r.nNonZeroMantissaBits (uadd s.nExponentBits 1)) r.nNonZeroExponentBits
        = r.nNonZeroMantissaBits * (E + 1) + r.nNonZeroExponentBits ∧
      r.nNonZeroMantissaBits * (E + 1) + r.nNonZeroExponentBits
        < s.nNonZeroBitsNormalizedPositive.length ∧
      r.nNonZeroMantissaBits * (E + 1) + r.nNonZeroExponentBits
        < s.nNonZeroBitsNormalizedNegative.length ∧
      r.nNonZeroMantissaBits < s.nNonZeroBitsDenormalizedPositive.length ∧
      r.nNonZeroMantissaBits < s.nNonZeroBitsDenormalizedNegative.length ∧
      (∃ s1, FloatInspectorStatisticsUpdateWithMetaInformation s r = some s1) ∧
      ∀ bytes2 r2, ValidCall bytes2 E M →
        FloatInspectorMetaInformationCreateGeneric bytes2 E M = some r2 →
        (r2.nNonZeroMantissaBits, r2.nNonZeroExponentBits)
          ≠ (r.nNonZeroMantissaBits, r.nNonZeroExponentBits) →
        r2.nNonZeroMantissaBits * (E + 1) + r2.nNonZeroExponentBits
          ≠ r.nNonZeroMantissaBits * (E + 1) + r.nNonZeroExponentBits := by
  obtain ⟨e, m, ze, zm, -, -, -, -, -, -, -, hze, hzm, hr⟩ := createGeneric_valid bytes E M h
  have hlt := flat_index_lt E M ze zm hze hzm
  have hcomm : (M + 1) * (E + 1) = (E + 1) * (M + 1) := Nat.mul_comm _ _
  obtain ⟨s1, hs1, -⟩ := update_some s
    ({ exponent := e, nExponentBits := E, nExponentBytes := (E + 7) / 8,
       nNonZeroExponentBits := ze, mantissa := m, nMantissaBits := M,
       nMantissaBytes := (M + 7) / 8, nNonZeroMantissaBits := zm,
       sign := signOf (leValue bytes) ((1 + E + M) / 8 - 1),
       type := classify ze E zm (expField (leValue bytes) E M) } :
      FloatInspectorMetaInformation) E M hp ⟨hze, hzm⟩
  obtain ⟨hE, hM, hnp, hdp, hnn, hdn, hsz⟩ := hp
  refine ⟨_, hr, ?_, ?_, ?_, ?_, ?_, ?_, ?_, ⟨s1, hs1⟩, ?_⟩
  · rw [hcomm]; exact hlt
  · show zm < M + 1; omega
  · rw [hE]; exact flat_index_eq E M ze zm hze hzm hsz
  · rw [hnp]; exact hlt
  · rw [hnn]; exact hlt
  · rw [hdp]; show zm < M + 1; omega
  · rw [hdn]; show zm < M + 1; omega
  · intro bytes2 r2 h2 hr2 hne heq
    obtain ⟨e2, m2, ze2, zm2, -, -, -, -, -, -, -, hze2, hzm2, hr2'⟩ :=
      createGeneric_valid bytes2 E M h2
    rw [hr2] at hr2'
    have q := Option.some.inj hr2'
    subst q
    have := flat_index_injective E ze2 zm2 ze zm hze2 hze heq
    apply hne
    show (zm2, ze2) = (zm, ze)
    rw [this.1, this.2]

/-- C22 at the float `1.0` and the float profile. -/
theorem c22_witness :
    ∃ r, FloatInspectorMetaInformationCreateGeneric [0, 0, 0x80, 0x3F] 8 23 = some r ∧
      r.nNonZeroMantissaBits * (8 + 1) + r.nNonZeroExponentBits < (23 + 1) * (8 + 1) ∧
      r.nNonZeroMantissaBits < 23 + 1 ∧
      ∃ s1, FloatInspectorStatisticsUpdateWithMetaInformation
        (FloatInspectorStatisticsCreateFloat x86_64 (fun _ => 0) (fun _ => 0) (fun _ => 0)
          (fun _ => 0)) r = some s1 := by
  obtain ⟨r, h1, h2, h3, -, -, -, -, -, h9, -⟩ := c22_update_indexes_inside_histograms
    [0, 0, 0x80, 0x3F] 8 23
    (FloatInspectorStatisticsCreateFloat x86_64 (fun _ => 0) (fun _ => 0) (fun _ => 0)
      (fun _ => 0)) (by decide) (createFloat_isProfile _ _ _ _)
  exact ⟨r, h1, h2, h3, h9⟩

/-- C25: for a profile with widths `(E, M)` whose counters satisfy
`nEntries = nNormalized + nDenormalized + nNaN + nInf`, with `nEntries` below
`UINT_MAX`, and a meta whose counts are within the widths, the update returns
a state in which the invariant holds again; the category counter of the meta's
type has increased by 1 and the three others are unchanged. -/
theorem c25_update_preserves_counter_invariant (s : _FloatInspectorStatistics)
    (meta : FloatInspectorMetaInformation) (E M : Nat) (hp : IsProfile s E M)
    (hw : WithinWidths meta E M) (hinv : CounterInvariant s)
    (hmax : s.nEntries < 4294967295) :
    ∃ s1, FloatInspectorStatisticsUpdateWithMetaInformation s meta = some s1 ∧
      CounterInvariant s1 ∧ s1.nEntries = s.nEntries + 1 ∧
      ((meta.type = FloatType.Normalized ∧ s1.nNormalized = s.nNormalized + 1 ∧
          s1.nDenormalized = s.nDenormalized ∧ s1.nNaN = s.nNaN ∧ s1.nInf = s.nInf) ∨
       (meta.type = FloatType.Denormalized ∧ s1.nNormalized = s.nNormalized ∧
          s1.nDenormalized = s.nDenormalized + 1 ∧ s1.nNaN = s.nNaN ∧ s1.nInf = s.nInf) ∨
       (meta.type = FloatType.NaN ∧ s1.nNormalized = s.nNormalized ∧
          s1.nDenormalized = s.nDenormalized ∧ s1.nNaN = s.nNaN + 1 ∧ s1.nInf = s.nInf) ∨
       (meta.type = FloatType.Infinity ∧ s1.nNormalized = s.nNormalized ∧
          s1.nDenormalized = s.nDenormalized ∧ s1.nNaN = s.nNaN ∧
          s1.nInf = s.nInf + 1)) := by
  obtain ⟨s1, h1, -, h3, h4, h5, h6, h7⟩ := update_some s meta E M hp hw
  unfold CounterInvariant at hinv ⊢
  have e1 : uadd s.nEntries 1 = s.nEntries + 1 := uadd_eq _ _ (by omega)
  have e2 : uadd s.nNormalized 1 = s.nNormalized + 1 := uadd_eq _ _ (by omega)
  have e3 : uadd s.nDenormalized 1 = s.nDenormalized + 1 := uadd_eq _ _ (by omega)
  have e4 : uadd s.nNaN 1 = s.nNaN + 1 := uadd_eq _ _ (by omega)
  have e5 : uadd s.nInf 1 = s.nInf + 1 := uadd_eq _ _ (by omega)
  rw [e1] at h3
  rw [e2] at h4
  rw [e3] at h5
  rw [e4] at h6
  rw [e5] at h7
  refine ⟨s1, h1, ?_, h3, ?_⟩
  · cases hty : meta.type <;> simp only [hty, if_true, if_false, reduceCtorEq] at h4 h5 h6 h7 <;>
      omega
  · cases hty : meta.type <;> simp only [hty, if_true, if_false, reduceCtorEq] at h4 h5 h6 h7
    · exact Or.inl ⟨rfl, h4, h5, h6, h7⟩
    · exact Or.inr (Or.inl ⟨rfl, h4, h5, h6, h7⟩)
    · exact Or.inr (Or.inr (Or.inl ⟨rfl, h4, h5, h6, h7⟩))
    · exact Or.inr (Or.inr (Or.inr ⟨rfl, h4, h5, h6, h7⟩))

/-- C25 at the float profile with clear blocks and the meta of the float
`-Infinity`. -/
theorem c25_witness :
    ∃ s1, FloatInspectorStatisticsUpdateWithMetaInformation
        (FloatInspectorStatisticsCreateFloat x86_64 (fun _ => 0) (fun _ => 0) (fun _ => 0)
          (fun _ => 0))
        { exponent := [0xFF], nExponentBits := 8, nExponentBytes := 1,
          nNonZeroExponentBits := 8, mantissa := [0, 0, 0], nMantissaBits := 23,
          nMantissaBytes := 3, nNonZeroMantissaBits := 0, sign := Sign.Negative,
          type := FloatType.Infinity } = some s1 ∧
      CounterInvariant s1 ∧ s1.nEntries = 1 := by
  obtain ⟨s1, h1, h2, h3, -⟩ := c25_update_preserves_counter_invariant
    (FloatInspectorStatisticsCreateFloat x86_64 (fun _ => 0) (fun _ => 0) (fun _ => 0)
      (fun _ => 0))
    { exponent := [0xFF], nExponentBits := 8, nExponentBytes := 1,
      nNonZeroExponentBits := 8, mantissa := [0, 0, 0], nMantissaBits := 23,
      nMantissaBytes := 3, nNonZeroMantissaBits := 0, sign := Sign.Negative,
      type := FloatType.Infinity } 8 23 (createFloat_isProfile _ _ _ _)
    ⟨by decide, by decide⟩ rfl (by decide)
  exact ⟨s1, h1, h2, h3⟩

theorem testBit_leValue (bytes : List Nat) (hb : IsBytes bytes) (i : Nat)
    (hi : i / 8 < bytes.length) :
    (leValue bytes).testBit i = (bytes.getD (i / 8) 0).testBit (i % 8) := by
  rw [getD_eq_byteOf bytes hb _ hi, testBit_byteOf, Nat.div_add_mod]
  have : i % 8 < 8 := Nat.mod_lt _ (by norm_num)
  simp [this]

theorem testBit_mod_128 (x k : Nat) (hk : k < 7) : (x % 128).testBit k = x.testBit k := by
  have h : (128 : Nat) = 2 ^ 7 := by norm_num
  rw [h, Nat.testBit_mod_two_pow]
  simp [hk]

/-- Buffers that differ only in bit 7 of the last byte have values that agree
on every bit below the top one. -/
theorem testBit_eq_of_differOnlyInSignBit (b1 b2 : List Nat) (hb1 : IsBytes b1)
    (hb2 : IsBytes b2) (hd : DifferOnlyInSignBit b1 b2) (i : Nat)
    (hi : i + 1 < 8 * b1.length) :
    (leValue b1).testBit i = (leValue b2).testBit i := by
  obtain ⟨hlen, hsame, hlow, -⟩ := hd
  rw [testBit_leValue b1 hb1 i (by omega), testBit_leValue b2 hb2 i (by omega)]
  by_cases hq : i / 8 < b1.length - 1
  · rw [List.getD_eq_getElem?_getD, List.getD_eq_getElem?_getD, hsame _ hq]
  · have hq2 : i / 8 = b1.length - 1 := by omega
    have hk : i % 8 < 7 := by omega
    rw [hq2, ← testBit_mod_128 _ _ hk, hlow, testBit_mod_128 _ _ hk]

theorem IsLE.unique (r1 r2 : List Nat) (n X : Nat) (h1 : IsLE r1 n X) (h2 : IsLE r2 n X) :
    r1 = r2 := by
  apply List.ext_getElem?
  intro k
  by_cases hk : k < n
  · rw [h1.2 k hk, h2.2 k hk]
  · rw [List.getElem?_eq_none (by rw [h1.1]; omega), List.getElem?_eq_none (by rw [h2.1]; omega)]

/-- C24: two buffers of a valid call that differ only in bit 7 of the last
byte give results with the same exponent bytes, mantissa bytes,
`nNonZeroExponentBits`, `nNonZeroMantissaBits` and type, and with opposite
signs. -/
theorem c24_sign_bit_influences_only_sign (b1 b2 : List Nat) (E M : Nat)
    (h1 : ValidCall b1 E M) (h2 : ValidCall b2 E M) (hd : DifferOnlyInSignBit b1 b2) :
    ∃ r1 r2, FloatInspectorMetaInformationCreateGeneric b1 E M = some r1 ∧
      FloatInspectorMetaInformationCreateGeneric b2 E M = some r2 ∧
      r1.exponent = r2.exponent ∧ r1.mantissa = r2.mantissa ∧
      r1.nNonZeroExponentBits = r2.nNonZeroExponentBits ∧
      r1.nNonZeroMantissaBits = r2.nNonZeroMantissaBits ∧
      r1.type = r2.type ∧ r2.sign = otherSign r1.sign := by
  obtain ⟨hb1, hE, hM, h8, h32, hl1⟩ := h1
  obtain ⟨hb2, -, -, -, -, hl2⟩ := h2
  have hbits : ∀ i, i < E + M → (leValue b1).testBit i = (leValue b2).testBit i := by
    intro i hi
    exact testBit_eq_of_differOnlyInSignBit b1 b2 hb1 hb2 hd i (by rw [hl1]; omega)
  have hexp : expField (leValue b1) E M = expField (leValue b2) E M := by
    apply Nat.eq_of_testBit_eq
    intro j
    unfold expField
    rw [Nat.testBit_mod_two_pow, Nat.testBit_mod_two_pow, Nat.testBit_shiftRight,
      Nat.testBit_shiftRight]
    by_cases hj : j < E
    · rw [hbits (M + j) (by omega)]
    · simp [hj]
  have hmant : mantStored (leValue b1) M = mantStored (leValue b2) M := by
    apply Nat.eq_of_testBit_eq
    intro j
    unfold mantStored
    rw [Nat.testBit_mod_two_pow, Nat.testBit_mod_two_pow]
    by_cases hj : j < 8 * ((M + 7) / 8 - 1) + M % 8
    · rw [hbits j (by omega)]
    · simp [hj]
  obtain ⟨e1, m1, ze1, zm1, p1, p2, p3, p4, -, -, p7⟩ :=
    createGeneric_spec b1 E M hb1 hE hM h8 h32 hl1
  obtain ⟨e2, m2, ze2, zm2, q1, q2, q3, q4, -, -, q7⟩ :=
    createGeneric_spec b2 E M hb2 hE hM h8 h32 hl2
  rw [← hexp] at q1 q7
  rw [← hmant] at q2
  have he : e1 = e2 := IsLE.unique e1 e2 _ _ p1 q1
  have hm : m1 = m2 := IsLE.unique m1 m2 _ _ p2 q2
  subst he hm
  have hze : ze1 = ze2 := by rw [p3] at q3; exact Option.some.inj q3
  have hzm : zm1 = zm2 := by rw [p4] at q4; exact Option.some.inj q4
  subst hze hzm
  refine ⟨_, _, p7, q7, rfl, rfl, rfl, rfl, rfl, ?_⟩
  show signOf (leValue b2) _ = otherSign (signOf (leValue b1) _)
  obtain ⟨hlen, -, -, hbit⟩ := hd
  have g1 := getD_eq_byteOf b1 hb1 ((1 + E + M) / 8 - 1) (by omega)
  have g2 := getD_eq_byteOf b2 hb2 ((1 + E + M) / 8 - 1) (by omega)
  rw [hl1] at hbit
  rw [g1, g2] at hbit
  rw [signOf_eq, signOf_eq]
  cases ha : (byteOf (leValue b1) ((1 + E + M) / 8 - 1)).testBit 7 <;>
    cases hb : (byteOf (leValue b2) ((1 + E + M) / 8 - 1)).testBit 7 <;>
    simp [ha, hb, otherSign] at hbit ⊢

/-- C24 at the float patterns `0x3FC00000` (`1.5`) and `0xBFC00000` (`-1.5`). -/
theorem c24_witness :
    ∃ r1 r2, FloatInspectorMetaInformationCreateGeneric [0, 0, 0xC0, 0x3F] 8 23 = some r1 ∧
      FloatInspectorMetaInformationCreateGeneric [0, 0, 0xC0, 0xBF] 8 23 = some r2 ∧
      r1.exponent = r2.exponent ∧ r1.mantissa = r2.mantissa ∧
      r1.nNonZeroExponentBits = r2.nNonZeroExponentBits ∧
      r1.nNonZeroMantissaBits = r2.nNonZeroMantissaBits ∧
      r1.type = r2.type ∧ r2.sign = otherSign r1.sign :=
  c24_sign_bit_influences_only_sign [0, 0, 0xC0, 0x3F] [0, 0, 0xC0, 0xBF] 8 23
    (by decide) (by decide) (by decide)

end FloatInspector
